import Mathlib

/-!
Verification development for the `layouter` repository's PDF markdown layout
engine (`src/project/src/utils/pdfMarkdownParser.ts` and the paragraph loop of
`src/project/src/components/Preview.tsx`).

The TypeScript code is shallowly embedded: the mutable `jsPDF` document object
becomes an explicit `DocState` record threaded through every function, its
`getTextWidth` capability becomes a measurement-function parameter
`MeasureFn`, draw calls (`doc.text`) are collected in a list of `DrawCall`
records, and JavaScript strings are modelled as `List Char` (`Str`), with the
JS string operations (`split`, `trim`, `replace`, concatenation) given
character-by-character recursive definitions.  Floating-point widths and
coordinates are modelled as rationals.
-/

namespace Layouter

/-- JavaScript strings, modelled as character lists. -/
abbrev Str := List Char

/-! ### Character-level models of the JavaScript string operations -/

/-- Model of JS `String.prototype.split(sep)` for a single-character
separator: splits at every occurrence, keeping empty pieces
(`"a  b".split(' ') = ["a","","b"]`, `"".split(' ') = [""]`). -/
def splitChar (c : Char) : Str → List Str
  | [] => [[]]
  | d :: rest =>
    if d = c then [] :: splitChar c rest
    else
      match splitChar c rest with
      | [] => [[d]]
      | w :: ws => (d :: w) :: ws

/-- Model of JS `String.prototype.trim()`: drop leading and trailing
whitespace. -/
def jsTrim (l : Str) : Str :=
  ((l.dropWhile Char.isWhitespace).reverse.dropWhile Char.isWhitespace).reverse

/-- Model of `text.replace(/---/g, '\n')`: scan left to right, replacing every
(non-overlapping) occurrence of three dashes by a newline. -/
def replaceDashes : Str → Str
  | '-' :: '-' :: '-' :: rest => '\n' :: replaceDashes rest
  | c :: rest => c :: replaceDashes rest
  | [] => []

/-- Model of `text.replace(/\n{2,}/g, '\n')`: collapse every run of two or
more newlines into a single newline. -/
def collapseNewlines : Str → Str
  | '\n' :: '\n' :: rest => collapseNewlines ('\n' :: rest)
  | c :: rest => c :: collapseNewlines rest
  | [] => []
termination_by l => l.length
decreasing_by all_goals (simp [List.length]; try omega)

/-- Join a list of strings with a separator between consecutive elements. -/
def joinWith (sep : Str) : List Str → Str
  | [] => []
  | [w] => w
  | w :: x :: ws => w ++ sep ++ joinWith sep (x :: ws)

/-! ### Data model (`TextStyle`, `TextSegment`, options, document state) -/

inductive ListType where
  | ordered
  | unordered
deriving DecidableEq, Repr

/-- `TextStyle` from the source (`bold`, `italic`, `heading: number | null`,
`list`, `listType`, `listLevel`, `indentation`). -/
structure TextStyle where
  bold : Bool
  italic : Bool
  heading : Option ℕ
  list : Bool
  listType : Option ListType
  listLevel : ℕ
  indentation : ℚ
deriving DecidableEq, Repr

/-- The initial `currentStyle` of `parseInlineMarkdown`. -/
def defaultStyle : TextStyle :=
  { bold := false, italic := false, heading := none, list := false
    listType := none, listLevel := 0, indentation := 0 }

structure TextSegment where
  text : Str
  style : TextStyle
deriving DecidableEq, Repr

inductive Align where
  | left
  | center
  | right
  | justify
deriving DecidableEq, Repr

/-- `PDFMarkdownOptions` from the source (`align` is the optional field). -/
structure PDFMarkdownOptions where
  maxWidth : ℚ
  align : Option Align
  fontSize : ℚ
  lineHeight : ℚ
  font : Str
deriving Repr

/-- The mutable state of the `jsPDF` document object that the layout code
reads or writes: current font name and style (`doc.setFont`/`doc.getFont`),
current font size (`doc.setFontSize`/`doc.getFontSize`) and the page height
(`doc.internal.pageSize.getHeight()`). -/
structure DocState where
  fontName : Str
  fontStyle : Str
  fontSize : ℚ
  pageHeight : ℚ
deriving DecidableEq, Repr

/-- The width-measurement capability `doc.getTextWidth`: the width of a string
under the document's current font name/style/size state. -/
abbrev MeasureFn := Str → DocState → ℚ

/-- One `doc.text(text, x, y)` draw call, together with the document state
(current font) in force when it was issued. -/
structure DrawCall where
  text : Str
  x : ℚ
  y : ℚ
  docState : DocState
deriving DecidableEq, Repr

/-! ### `applyStyle` -/

/-- The `headingSizes` lookup table from `applyStyle` (levels 1..6; other
levels never reach the lookup: the header regex caps the level at 6 and the
tokenizer always leaves `heading` null, so the default branch is spurious). -/
def headingSizes (base : ℚ) (l : ℕ) : ℚ :=
  if l = 1 then base * 2
  else if l = 2 then base * (3/2)
  else if l = 3 then base * (117/100)
  else if l = 4 then base * 1
  else if l = 5 then base * (83/100)
  else if l = 6 then base * (67/100)
  else base

/-- The font-style string computed by `applyStyle`. -/
def fontStyleOf (style : TextStyle) : Str :=
  if style.bold && style.italic then "bolditalic".toList
  else if style.bold then "bold".toList
  else if style.italic then "italic".toList
  else "normal".toList

/-- `applyStyle(doc, style, baseFontSize, font)`: sets the document font
(name and bold/italic variant) and the font size (heading sizes apply only
for a truthy `heading`, i.e. a non-null non-zero level). -/
def applyStyle (doc : DocState) (style : TextStyle) (baseFontSize : ℚ)
    (font : Str) : DocState :=
  let sz : ℚ :=
    match style.heading with
    | some l => if l = 0 then baseFontSize else headingSizes baseFontSize l
    | none => baseFontSize
  { doc with fontName := font, fontStyle := fontStyleOf style, fontSize := sz }

/-! ### Inline tokenizer (`parseInlineMarkdown`) -/

/-- Push the accumulated `currentText` (if non-empty) as a segment under a
copy of the current style. -/
def flushSeg (cur : Str) (st : TextStyle) : List TextSegment :=
  if cur = [] then [] else [⟨cur, st⟩]

/-- The scanning loop of `parseInlineMarkdown`: `cur` is `currentText`, `st`
is `currentStyle`.  A `*` or `_` flushes the accumulated text (if non-empty)
and toggles bold (doubled marker, consuming two characters) or italic (single
marker); any other character is appended to `currentText`; at end of input the
accumulated text is flushed under the current style.  (In the one-character
case a final marker toggles italic and the loop then ends with an empty
`currentText`, flushing nothing.) -/
def parseInlineAux : Str → Str → TextStyle → List TextSegment
  | [], cur, st => flushSeg cur st
  | [c], cur, st =>
    if c = '*' ∨ c = '_' then
      flushSeg cur st ++ flushSeg [] { st with italic := !st.italic }
    else
      flushSeg (cur ++ [c]) st
  | c :: d :: rest, cur, st =>
    if c = '*' ∨ c = '_' then
      let segs := flushSeg cur st
      if d = c then
        segs ++ parseInlineAux rest [] { st with bold := !st.bold }
      else
        segs ++ parseInlineAux (d :: rest) [] { st with italic := !st.italic }
    else
      parseInlineAux (d :: rest) (cur ++ [c]) st

def parseInlineMarkdown (text : Str) : List TextSegment :=
  parseInlineAux text [] defaultStyle

/-! ### `calculateIndentation` -/

/-- Test for the list-marker regex `^(\s*(?:[-*]|\d+\.)\s+)` after the leading
whitespace has been dropped. -/
def isListMarker : Str → Bool
  | [] => false
  | c :: rest =>
    if c = '-' ∨ c = '*' then
      match rest with
      | d :: _ => d.isWhitespace
      | [] => false
    else if c.isDigit then
      match rest.dropWhile Char.isDigit with
      | '.' :: e :: _ => e.isWhitespace
      | _ => false
    else false

/-- `calculateIndentation(text)` from the source: a base indent of 0.25 em per
two leading whitespace characters, plus 0.25 for a list-marker line, else
0.75 for an indented line, else 0.25 for any other non-blank line. -/
def calculateIndentation (text : Str) : ℚ :=
  let lead := (text.takeWhile Char.isWhitespace).length
  let baseIndent : ℚ := ((lead / 2 : ℕ) : ℚ) * (1/4)
  let rest := text.dropWhile Char.isWhitespace
  baseIndent +
    (if isListMarker rest then 1/4
     else if baseIndent > 0 then 3/4
     else if jsTrim text ≠ [] then 1/4
     else 0)

/-! ### Line wrapper (`splitTextToLines`) -/

/-- The values `splitTextToLines` computes once at entry and closes over in
its local helpers: the measurement capability, `availableWidth`
(`maxWidth - baseIndentation * doc.getFontSize()`), `spaceWidth`
(`doc.getTextWidth(' ')` at the entry document state), `baseIndentation` and
the `font` parameter. -/
structure WrapCtx where
  gw : MeasureFn
  availableWidth : ℚ
  spaceWidth : ℚ
  baseIndentation : ℚ
  font : Str

def mkWrapCtx (gw : MeasureFn) (doc : DocState) (maxWidth baseIndentation : ℚ)
    (font : Str) : WrapCtx :=
  { gw := gw
    availableWidth := maxWidth - baseIndentation * doc.fontSize
    spaceWidth := gw [' '] doc
    baseIndentation := baseIndentation
    font := font }

/-- The mutable state of the wrapping loop: the document object, the committed
lines (`lines`, with the trailing empty slot and the final
`filter(line => line.length > 0)` already accounted for), `currentLineWords`
and `currentLineWidth`. -/
structure WrapState where
  doc : DocState
  committed : List (List TextSegment)
  cur : List TextSegment
  curWidth : ℚ

/-- `commitCurrentLine()`: if the current line is non-empty, append it to the
committed lines and reset the current line and its width. -/
def commitCurrentLine (st : WrapState) : WrapState :=
  if st.cur = [] then st
  else { st with committed := st.committed ++ [st.cur], cur := [], curWidth := 0 }

/-- `addWordToLine(wordSegment, width)`: when the current line already has
words, first push a single-space segment carrying the word's style and add
`spaceWidth`; then push the word segment and add its width. -/
def addWordToLine (ctx : WrapCtx) (st : WrapState) (seg : TextSegment) (w : ℚ) :
    WrapState :=
  if st.cur = [] then
    { st with cur := [seg], curWidth := st.curWidth + w }
  else
    let sp : TextSegment := ⟨[' '], seg.style⟩
    { st with
      cur := st.cur ++ ([sp, seg])
      curWidth := st.curWidth + ctx.spaceWidth + w }

/-- The character loop of `splitWordIfNeeded`: `cur` is `currentPart`; each
iteration re-applies the style and measures `currentPart + chars[i]`; on
overflow a non-empty `currentPart` is pushed and the character starts a new
part.  Returns the pushed parts, the final `currentPart` and the document
state. -/
def splitWordAux (ctx : WrapCtx) (style : TextStyle) :
    Str → Str → DocState → List TextSegment × Str × DocState
  | [], cur, doc => ([], cur, doc)
  | c :: cs, cur, doc =>
    let testPart := cur ++ [c]
    let doc := applyStyle doc style doc.fontSize ctx.font
    let testWidth := ctx.gw testPart doc
    if testWidth > ctx.availableWidth then
      if cur = [] then
        splitWordAux ctx style cs [c] doc
      else
        let r := splitWordAux ctx style cs [c] doc
        (⟨cur, style⟩ :: r.1, r.2)
    else
      splitWordAux ctx style cs testPart doc

/-- `splitWordIfNeeded(word, style)`: split a word into parts, each formed by
greedily extending while the measured width stays within `availableWidth`;
the final non-empty `currentPart` is flushed at the end. -/
def splitWordIfNeeded (ctx : WrapCtx) (word : Str) (style : TextStyle)
    (doc : DocState) : List TextSegment × DocState :=
  let r := splitWordAux ctx style word [] doc
  (r.1 ++ (if r.2.1 = [] then [] else [⟨r.2.1, style⟩]), r.2.2)

/-- The `parts.forEach((part, index) => ...)` loop shared by both branches of
the long-word fallback: every part after the first commits the current line;
each part is re-styled, re-measured and added to the line. -/
def addParts (ctx : WrapCtx) : List TextSegment → Bool → WrapState → WrapState
  | [], _, st => st
  | p :: ps, isFirst, st =>
    let st1 := if isFirst then st else commitCurrentLine st
    let doc := applyStyle st1.doc p.style st1.doc.fontSize ctx.font
    let w := ctx.gw p.text doc
    addParts ctx ps false (addWordToLine ctx { st1 with doc := doc } p w)

/-- The body of the `words.forEach` loop of `splitTextToLines`: skip empty
words; build the word segment (overriding `indentation`), apply its style and
measure it; append it when it fits, otherwise commit the current line (if
non-empty) and either start a new line with the word or character-split it. -/
def processWord (ctx : WrapCtx) (st : WrapState) (segStyle : TextStyle)
    (word : Str) : WrapState :=
  if word = [] then st
  else
    let wordSeg : TextSegment := ⟨word, { segStyle with indentation := ctx.baseIndentation }⟩
    let doc := applyStyle st.doc wordSeg.style st.doc.fontSize ctx.font
    let wordWidth := ctx.gw word doc
    let st := { st with doc := doc }
    if st.curWidth + (if st.cur = [] then 0 else ctx.spaceWidth) + wordWidth ≤ ctx.availableWidth then
      addWordToLine ctx st wordSeg wordWidth
    else if st.cur = [] then
      let r := splitWordIfNeeded ctx word wordSeg.style st.doc
      addParts ctx r.1 true { st with doc := r.2 }
    else
      let st := commitCurrentLine st
      if wordWidth ≤ ctx.availableWidth then
        addWordToLine ctx st wordSeg wordWidth
      else
        let r := splitWordIfNeeded ctx word wordSeg.style st.doc
        addParts ctx r.1 true { st with doc := r.2 }

/-- The `segments.forEach` body: split the segment's text on single spaces
and process each word. -/
def processSegment (ctx : WrapCtx) (st : WrapState) (seg : TextSegment) :
    WrapState :=
  (splitChar ' ' seg.text).foldl (fun st w => processWord ctx st seg.style w) st

/-- `splitTextToLines(doc, segments, maxWidth, baseIndentation, font)`:
greedy word wrapping.  Returns the non-empty lines (the source's final
`filter`) and the resulting document state. -/
def splitTextToLines (gw : MeasureFn) (doc : DocState)
    (segments : List TextSegment) (maxWidth baseIndentation : ℚ)
    (font : Str) : List (List TextSegment) × DocState :=
  let ctx := mkWrapCtx gw doc maxWidth baseIndentation font
  let st := segments.foldl (fun st seg => processSegment ctx st seg)
    ⟨doc, [], [], 0⟩
  (st.committed ++ (if st.cur = [] then [] else [st.cur]), st.doc)

/-! ### Line renderers -/

/-- The fallback branch of `renderJustifiedLine` (last line of the paragraph
or at most one segment): draw each segment at the running x, advancing by the
measured width of the segment's text with a space appended (no appended space
for a segment that is itself a single space).  `applyStyle` is called with the
document's current font size and font name. -/
def renderFallback (gw : MeasureFn) :
    List TextSegment → ℚ → ℚ → DocState → List DrawCall × DocState
  | [], _, _, doc => ([], doc)
  | seg :: rest, x, y, doc =>
    let doc := applyStyle doc seg.style doc.fontSize doc.fontName
    let adv := gw (seg.text ++ (if seg.text = [' '] then [] else [' '])) doc
    let r := renderFallback gw rest (x + adv) y doc
    (⟨seg.text, x, y, doc⟩ :: r.1, r.2)

/-- The measuring pass of the justify branch: total text width and the number
of single-space segments. -/
def justMeasure (gw : MeasureFn) :
    List TextSegment → DocState → ℚ × ℕ × DocState
  | [], doc => (0, 0, doc)
  | seg :: rest, doc =>
    let doc := applyStyle doc seg.style doc.fontSize doc.fontName
    let w := gw seg.text doc
    let r := justMeasure gw rest doc
    (w + r.1, (if seg.text = [' '] then 1 else 0) + r.2.1, r.2.2)

/-- The rendering pass of the justify branch: after a space segment that is
not the last segment, advance by the space width plus `extraSpacePerGap`;
otherwise advance by the segment's measured width. -/
def justRender (gw : MeasureFn) (extra : ℚ) :
    List TextSegment → ℚ → ℚ → DocState → List DrawCall × DocState
  | [], _, _, doc => ([], doc)
  | seg :: rest, x, y, doc =>
    let doc := applyStyle doc seg.style doc.fontSize doc.fontName
    let adv :=
      if seg.text = [' '] ∧ rest ≠ [] then gw [' '] doc + extra
      else gw seg.text doc
    let r := justRender gw extra rest (x + adv) y doc
    (⟨seg.text, x, y, doc⟩ :: r.1, r.2)

/-- `renderJustifiedLine(doc, segments, x, y, maxWidth, isLastLine)`. -/
def renderJustifiedLine (gw : MeasureFn) (doc : DocState)
    (segments : List TextSegment) (x y maxWidth : ℚ) (isLastLine : Bool) :
    List DrawCall × DocState :=
  if isLastLine = true ∨ segments.length ≤ 1 then
    renderFallback gw segments x y doc
  else
    let m := justMeasure gw segments doc
    let totalTextWidth := m.1
    let numberOfSpaces := m.2.1
    let doc := m.2.2
    let remainingSpace := maxWidth - totalTextWidth
    let extraSpacePerGap : ℚ :=
      if numberOfSpaces > 0 then remainingSpace / (numberOfSpaces : ℚ) else 0
    justRender gw extraSpacePerGap segments x y doc

/-- The `totalWidth` measuring loop of the non-justify alignment branches:
apply each segment's style (with the caller's base font size and font) and
sum the measured widths. -/
def measureTotalWidth (gw : MeasureFn) (fontSize : ℚ) (font : Str) :
    List TextSegment → DocState → ℚ × DocState
  | [], doc => (0, doc)
  | seg :: rest, doc =>
    let doc := applyStyle doc seg.style fontSize font
    let w := gw seg.text doc
    let r := measureTotalWidth gw fontSize font rest doc
    (w + r.1, r.2)

/-- The draw loop of the non-justify alignment branches: apply each segment's
style, draw it at the running offset, advance by its measured width. -/
def drawSegs (gw : MeasureFn) (fontSize : ℚ) (font : Str) :
    List TextSegment → ℚ → ℚ → DocState → List DrawCall × DocState
  | [], _, _, doc => ([], doc)
  | seg :: rest, x, y, doc =>
    let doc := applyStyle doc seg.style fontSize font
    let r := drawSegs gw fontSize font rest (x + gw seg.text doc) y doc
    (⟨seg.text, x, y, doc⟩ :: r.1, r.2)

/-- The `lines.forEach((lineSegments, lineIndex) => ...)` rendering loop that
appears (three times, with different offset formulas) in `parsePDFMarkdown`:
skip everything once the cursor passed `maxY`; render the line justified or
with the alignment offsets (`xLeft` for left/justify, `centerX`/`rightX`
applied to the measured total width); advance the cursor by `lineHeight`
after every line except the last. -/
def renderBlock (gw : MeasureFn) (align : Option Align) (fontSize : ℚ)
    (font : Str) (lineHeight maxY xLeft justWidth : ℚ)
    (centerX rightX : ℚ → ℚ) :
    List (List TextSegment) → ℚ → DocState → List DrawCall →
      ℚ × DocState × List DrawCall
  | [], y, doc, ds => (y, doc, ds)
  | lsegs :: rest, y, doc, ds =>
    if y > maxY then (y, doc, ds)
    else
      let next :=
        if align = some Align.justify then
          let r := renderJustifiedLine gw doc lsegs xLeft y justWidth (rest = [])
          (r.2, ds ++ r.1)
        else
          let m := measureTotalWidth gw fontSize font lsegs doc
          let xOffset :=
            if align = some Align.center then centerX m.1
            else if align = some Align.right then rightX m.1
            else xLeft
          let r := drawSegs gw fontSize font lsegs xOffset y m.2
          (r.2, ds ++ r.1)
      let y2 := if rest = [] then y else y + lineHeight
      renderBlock gw align fontSize font lineHeight maxY xLeft justWidth
        centerX rightX rest y2 next.1 next.2

/-! ### Block classification (the regexes of `parsePDFMarkdown`) -/

/-- `line.match(/^(#{1,6})\s+(.+)$/)` (on an already-trimmed line): one to
six leading `#`, at least one whitespace character, then the non-empty rest
with its leading whitespace stripped. -/
def headerMatch (line : Str) : Option (ℕ × Str) :=
  let r := (line.takeWhile (· = '#')).length
  if 1 ≤ r ∧ r ≤ 6 then
    match line.drop r with
    | c :: rest =>
      if c.isWhitespace then
        match (c :: rest).dropWhile Char.isWhitespace with
        | [] => none
        | content => some (r, content)
      else none
    | [] => none
  else none

/-- `line.match(/^(\d+)\.\s+(.+)$/)` (on an already-trimmed line): returns
the digit string and the content. -/
def orderedListMatch (line : Str) : Option (Str × Str) :=
  let ds := line.takeWhile Char.isDigit
  if ds = [] then none
  else
    match line.drop ds.length with
    | '.' :: c :: rest =>
      if c.isWhitespace then
        match (c :: rest).dropWhile Char.isWhitespace with
        | [] => none
        | content => some (ds, content)
      else none
    | _ => none

/-- `line.match(/^[-*]\s+(.+)$/)` (on an already-trimmed line). -/
def unorderedListMatch (line : Str) : Option Str :=
  match line with
  | c :: d :: rest =>
    if (c = '-' ∨ c = '*') ∧ d.isWhitespace then
      match (d :: rest).dropWhile Char.isWhitespace with
      | [] => none
      | content => some content
    else none
  | _ => none

/-! ### `parsePDFMarkdown` -/

/-- The body of the `for` loop of `parsePDFMarkdown`, one source line at a
time.  Early `return currentY` statements stop the recursion and return the
cursor; the accumulated draw calls and document state are carried along.
The heading branch sets the heading font size
(`options.fontSize * (2.5 - level*0.3)`) and bold before wrapping and resets
the font afterwards; list branches draw their marker and indent the wrap
width by `listIndent + 5`; every branch advances the cursor by `lineHeight`
before rendering its first line. -/
def parseLinesLoop (gw : MeasureFn) (x : ℚ) (opts : PDFMarkdownOptions)
    (lineHeight maxY : ℚ) :
    List Str → ℚ → DocState → List DrawCall → ℚ × List DrawCall × DocState
  | [], y, doc, ds => (y, ds, doc)
  | l :: rest, y, doc, ds =>
    let baseIndentation := calculateIndentation l
    let line := jsTrim l
    if line = [] then
      parseLinesLoop gw x opts lineHeight maxY rest (y + lineHeight) doc ds
    else if y + lineHeight > maxY then (y, ds, doc)
    else
      match headerMatch line with
      | some lv =>
        let y := y + lineHeight
        if y > maxY then (y, ds, doc)
        else
          let doc := { doc with
            fontSize := opts.fontSize * (5/2 - (lv.1 : ℚ) * (3/10))
            fontName := opts.font
            fontStyle := "bold".toList }
          let segments := parseInlineMarkdown lv.2
          let w := splitTextToLines gw doc segments opts.maxWidth baseIndentation opts.font
          let r := renderBlock gw opts.align opts.fontSize opts.font lineHeight
            maxY (x + baseIndentation * opts.fontSize)
            (opts.maxWidth - baseIndentation * opts.fontSize)
            (fun tw => x + (opts.maxWidth - tw) / 2)
            (fun tw => x + opts.maxWidth - tw) w.1 y w.2 ds
          let doc := { r.2.1 with
            fontSize := opts.fontSize
            fontName := opts.font
            fontStyle := "normal".toList }
          parseLinesLoop gw x opts lineHeight maxY rest r.1 doc r.2.2
      | none =>
        match orderedListMatch line with
        | some om =>
          let listIndent := baseIndentation * opts.fontSize
          let y := y + lineHeight
          if y > maxY then (y, ds, doc)
          else
            let ds := ds ++ [⟨om.1 ++ ['.'], x + listIndent, y, doc⟩]
            let segments := parseInlineMarkdown om.2
            let w := splitTextToLines gw doc segments
              (opts.maxWidth - (listIndent + 5)) baseIndentation opts.font
            let r := renderBlock gw opts.align opts.fontSize opts.font
              lineHeight maxY (x + listIndent + 5)
              (opts.maxWidth - (listIndent + 5))
              (fun tw => x + listIndent + 5 + (opts.maxWidth - listIndent - 5 - tw) / 2)
              (fun tw => x + opts.maxWidth - tw) w.1 y w.2 ds
            parseLinesLoop gw x opts lineHeight maxY rest r.1 r.2.1 r.2.2
        | none =>
          match unorderedListMatch line with
          | some content =>
            let listIndent := baseIndentation * opts.fontSize
            let y := y + lineHeight
            if y > maxY then (y, ds, doc)
            else
              let ds := ds ++ [⟨['•'], x + listIndent, y, doc⟩]
              let segments := parseInlineMarkdown content
              let w := splitTextToLines gw doc segments
                (opts.maxWidth - (listIndent + 5)) baseIndentation opts.font
              let r := renderBlock gw opts.align opts.fontSize opts.font
                lineHeight maxY (x + listIndent + 5)
                (opts.maxWidth - (listIndent + 5))
                (fun tw => x + listIndent + 5 + (opts.maxWidth - listIndent - 5 - tw) / 2)
                (fun tw => x + opts.maxWidth - tw) w.1 y w.2 ds
              parseLinesLoop gw x opts lineHeight maxY rest r.1 r.2.1 r.2.2
          | none =>
            let y := y + lineHeight
            if y > maxY then (y, ds, doc)
            else
              let segments := parseInlineMarkdown line
              let w := splitTextToLines gw doc segments opts.maxWidth
                baseIndentation opts.font
              let r := renderBlock gw opts.align opts.fontSize opts.font
                lineHeight maxY (x + baseIndentation * opts.fontSize)
                (opts.maxWidth - baseIndentation * opts.fontSize)
                (fun tw => x + (opts.maxWidth - tw) / 2)
                (fun tw => x + opts.maxWidth - tw) w.1 y w.2 ds
              parseLinesLoop gw x opts lineHeight maxY rest r.1 r.2.1 r.2.2

/-- `parsePDFMarkdown(doc, text, x, y, options)`: returns the new cursor
position, the issued draw calls, and the final document state.  Empty
(falsy) text returns `y` immediately.  Otherwise `---` becomes a newline,
newline runs collapse, the font is set to `(options.font, 'normal')` at
`options.fontSize`, the line height is
`options.fontSize * 0.352778 * options.lineHeight`, `maxY` is the page
height minus the hard-coded bottom margin 20, and the lines are processed in
order. -/
def parsePDFMarkdown (gw : MeasureFn) (doc : DocState) (text : Str)
    (x y : ℚ) (opts : PDFMarkdownOptions) : ℚ × List DrawCall × DocState :=
  if text = [] then (y, [], doc)
  else
    let text := collapseNewlines (replaceDashes text)
    let doc := { doc with
      fontName := opts.font
      fontStyle := "normal".toList
      fontSize := opts.fontSize }
    let lineHeight := opts.fontSize * (352778/1000000) * opts.lineHeight
    let textLines := splitChar '\n' text
    let maxY := doc.pageHeight - 20
    parseLinesLoop gw x opts lineHeight maxY textLines y doc []

/-! ### The caller's paragraph loop (`Preview.tsx`, `generatePdf`) -/

/-- The settings and derived constants in scope in `generatePdf` that the
per-paragraph loop reads. -/
structure PreviewSettings where
  pageWidth : ℚ
  pageHeight : ℚ
  marginLeft : ℚ
  marginRight : ℚ
  marginTop : ℚ
  marginBottom : ℚ
  numberingEnabled : Bool
  numberingCenter : Bool
  numberingRight : Bool
  numberingTop : Bool
  footerFamily : Str
  footerSize : ℚ
  paragraphFamily : Str
  paragraphSize : ℚ
  paragraphLineHeight : ℚ
  paragraphAlignment : Option Align

/-- `addPageNumber(isRoman=false)`: when numbering is enabled, draw the
arabic page count at the configured footer position with the footer font,
then restore the paragraph font.  (The `{align: ...}` option of the label's
`doc.text` call is not modelled; the recorded `x` is the anchor position.) -/
def addPageNumber (s : PreviewSettings) (arabic : ℕ) (doc : DocState)
    (ds : List DrawCall) : DocState × List DrawCall :=
  if s.numberingEnabled then
    let px := if s.numberingCenter then s.pageWidth / 2
      else if s.numberingRight then s.pageWidth - s.marginRight
      else s.marginLeft
    let py := if s.numberingTop then s.marginTop - 5
      else s.pageHeight - s.marginBottom / 2
    let doc1 := { doc with fontName := s.footerFamily, fontSize := s.footerSize }
    let ds := ds ++ [⟨(toString arabic).toList, px, py, doc1⟩]
    ({ doc1 with fontName := s.paragraphFamily, fontSize := s.paragraphSize }, ds)
  else (doc, ds)

/-- One iteration of the `for (const paragraph of paragraphs)` loop of
`generatePdf` (`Preview.tsx`): if the cursor exceeds
`pageHeight - marginBottom - 20`, draw the page number, increment the arabic
page count, start a new page and reset the cursor to the top margin; then lay
the paragraph out with `parsePDFMarkdown`.  The state is
(cursor, arabic page count, document, draw calls); the page count increments
exactly when a page break is emitted.  (The source call site omits the
`font` option of `PDFMarkdownOptions`; it is modelled as the paragraph
family.) -/
def previewParagraphStep (gw : MeasureFn) (s : PreviewSettings)
    (chapterIndentation : ℚ) (st : ℚ × ℕ × DocState × List DrawCall)
    (paragraph : Str) : ℚ × ℕ × DocState × List DrawCall :=
  let y := st.1
  let arabic := st.2.1
  let doc := st.2.2.1
  let ds := st.2.2.2
  let brk :=
    if y > s.pageHeight - s.marginBottom - 20 then
      let r := addPageNumber s arabic doc ds
      (s.marginTop, arabic + 1, r.1, r.2)
    else (y, arabic, doc, ds)
  let contentWidth := s.pageWidth - s.marginLeft - s.marginRight
  let opts : PDFMarkdownOptions :=
    { maxWidth := contentWidth
      align := s.paragraphAlignment
      fontSize := s.paragraphSize
      lineHeight := s.paragraphLineHeight
      font := s.paragraphFamily }
  let r := parsePDFMarkdown gw brk.2.2.1 paragraph
    (s.marginLeft + chapterIndentation * 10) brk.1 opts
  (r.1, brk.2.1, r.2.2, brk.2.2.2 ++ r.2.1)

/-! ### Concrete fixtures used by witnesses and counterexamples -/

/-- A simple deterministic measurement: every character is one unit wide,
independent of the font state. -/
def gwLen : MeasureFn := fun s _ => (s.length : ℚ)

/-- A document in the entry state `parsePDFMarkdown` establishes: font `f`,
style `normal`, size 10, page height 1000. -/
def doc0 : DocState := ⟨"f".toList, "normal".toList, 10, 1000⟩

/-! ### Tokenizer lemmas -/

/-- The characters whose every occurrence the tokenizer consumes as a style
toggle: removing them from the input is what "stripping the markup
delimiters" means for this tokenizer. -/
def stripMarkers : Str → Str
  | [] => []
  | c :: rest =>
    if c = '*' ∨ c = '_' then stripMarkers rest else c :: stripMarkers rest

lemma flushSeg_nil (st : TextStyle) : flushSeg [] st = [] := rfl

lemma flushSeg_flatten (cur : Str) (st : TextStyle) :
    ((flushSeg cur st).map (fun s => s.text)).flatten = cur := by
  by_cases h : cur = [] <;> simp [flushSeg, h]

lemma parseInlineAux_flatten (l cur : Str) (st : TextStyle) :
    ((parseInlineAux l cur st).map (fun s => s.text)).flatten
      = cur ++ stripMarkers l := by
  induction l, cur, st using parseInlineAux.induct with
  | case1 cur st => simp [parseInlineAux, flushSeg_flatten, stripMarkers]
  | case2 c cur st hm =>
    simp [parseInlineAux, hm, stripMarkers, flushSeg_nil, flushSeg_flatten]
  | case3 c cur st hm =>
    simp [parseInlineAux, hm, stripMarkers, flushSeg_flatten]
  | case4 d rest cur st hm ih =>
    simp [parseInlineAux, hm, stripMarkers, flushSeg_flatten, ih]
  | case5 c d rest cur st hm hd ih =>
    simp [parseInlineAux, hm, hd, stripMarkers, flushSeg_flatten, ih]
  | case6 c d rest cur st hm ih =>
    simp [parseInlineAux, hm, stripMarkers, ih]

lemma parseInlineAux_text_ne_nil (l cur : Str) (st : TextStyle) :
    ∀ seg ∈ parseInlineAux l cur st, seg.text ≠ [] := by
  induction l, cur, st using parseInlineAux.induct with
  | case1 cur st =>
    intro seg hseg
    by_cases h : cur = [] <;> simp_all [parseInlineAux, flushSeg]
  | case2 c cur st hm =>
    intro seg hseg
    by_cases hc : cur = [] <;> simp_all [parseInlineAux, flushSeg, hm]
  | case3 c cur st hm =>
    intro seg hseg
    simp_all [parseInlineAux, flushSeg, hm]
  | case4 d rest cur st hm ih =>
    intro seg hseg
    simp only [parseInlineAux, hm, if_true, eq_self_iff_true,
      List.mem_append] at hseg
    rcases hseg with h1 | h1
    · by_cases hc : cur = [] <;> simp_all [flushSeg]
    · exact ih seg h1
  | case5 c d rest cur st hm hd ih =>
    intro seg hseg
    simp only [parseInlineAux, hm, if_true, hd, if_false,
      List.mem_append] at hseg
    rcases hseg with h1 | h1
    · by_cases hc : cur = [] <;> simp_all [flushSeg]
    · exact ih seg h1
  | case6 c d rest cur st hm ih =>
    intro seg hseg
    simp only [parseInlineAux, hm, if_false] at hseg
    exact ih seg hseg

lemma parseInlineAux_heading (l cur : Str) (st : TextStyle)
    (hst : st.heading = none) :
    ∀ seg ∈ parseInlineAux l cur st, seg.style.heading = none := by
  revert hst
  induction l, cur, st using parseInlineAux.induct with
  | case1 cur st =>
    intro hst seg hseg
    by_cases h : cur = [] <;> simp_all [parseInlineAux, flushSeg]
  | case2 c cur st hm =>
    intro hst seg hseg
    by_cases hc : cur = [] <;> simp_all [parseInlineAux, flushSeg, hm]
  | case3 c cur st hm =>
    intro hst seg hseg
    simp_all [parseInlineAux, flushSeg, hm]
  | case4 d rest cur st hm ih =>
    intro hst seg hseg
    simp only [parseInlineAux, hm, if_true, eq_self_iff_true,
      List.mem_append] at hseg
    rcases hseg with h1 | h1
    · by_cases hc : cur = [] <;> simp_all [flushSeg]
    · exact ih hst seg h1
  | case5 c d rest cur st hm hd ih =>
    intro hst seg hseg
    simp only [parseInlineAux, hm, if_true, hd, if_false,
      List.mem_append] at hseg
    rcases hseg with h1 | h1
    · by_cases hc : cur = [] <;> simp_all [flushSeg]
    · exact ih hst seg h1
  | case6 c d rest cur st hm ih =>
    intro hst seg hseg
    simp only [parseInlineAux, hm, if_false] at hseg
    exact ih hst seg hseg

lemma parseInlineAux_noMarkers (l cur : Str) (st : TextStyle)
    (h : ∀ c ∈ l, ¬(c = '*' ∨ c = '_')) :
    parseInlineAux l cur st = flushSeg (cur ++ l) st := by
  revert h
  induction l, cur, st using parseInlineAux.induct with
  | case1 cur st => intro h; simp [parseInlineAux]
  | case2 c cur st hm => intro h; exact absurd hm (h c (by simp))
  | case3 c cur st hm => intro h; simp [parseInlineAux, hm]
  | case4 d rest cur st hm ih => intro h; exact absurd hm (h d (by simp))
  | case5 c d rest cur st hm hd ih => intro h; exact absurd hm (h c (by simp))
  | case6 c d rest cur st hm ih =>
    intro h
    simp only [parseInlineAux, hm, if_false]
    rw [ih (fun x hx => h x (by simp [hx]))]
    simp

lemma parseInlineAux_allMarkers (l cur : Str) (st : TextStyle)
    (h : ∀ c ∈ l, c = '*' ∨ c = '_') :
    parseInlineAux l cur st = flushSeg cur st := by
  revert h
  induction l, cur, st using parseInlineAux.induct with
  | case1 cur st => intro h; simp [parseInlineAux]
  | case2 c cur st hm => intro h; simp [parseInlineAux, hm, flushSeg_nil]
  | case3 c cur st hm => intro h; exact absurd (h c (by simp)) hm
  | case4 d rest cur st hm ih =>
    intro h
    simp only [parseInlineAux, hm, if_true, eq_self_iff_true]
    rw [ih (fun x hx => h x (by simp [hx]))]
    simp [flushSeg_nil]
  | case5 c d rest cur st hm hd ih =>
    intro h
    simp only [parseInlineAux, hm, if_true, hd, if_false]
    rw [ih (fun x hx => h x (by simp [hx]))]
    simp [flushSeg_nil]
  | case6 c d rest cur st hm ih => intro h; exact absurd (h c (by simp)) hm

/-! ### Claim C9: tokenizer fail-open behaviour -/

/-- C9 (corrected claim, counterexample): a line consisting only of delimiter
characters is **not** treated as literal text — the tokenizer consumes the
lone `*` as an italic toggle and produces the empty segment list. -/
theorem C9_counterexample_delimiter_only_line :
    parseInlineMarkdown "*".toList = [] := by
  simp [parseInlineMarkdown, parseInlineAux, flushSeg_nil]

/-- C9 (amended): the inline tokenizer is total (it is a structurally
recursive function) and fail-open in the following senses: (a) for every
input, concatenating the emitted segment texts yields exactly the input with
all `*`/`_` delimiter characters removed — no other character is dropped or
duplicated, even for unmatched markers; (b) the text after an unmatched
opening `*` is flushed at end of input under the still-open italic style —
it is never dropped; (c) however, a line consisting only of delimiter
characters produces the empty segment list (the delimiters toggle styles and
are consumed; they are not echoed as literal text). -/
theorem C9_tokenizer_fail_open :
    (∀ s : Str, ((parseInlineMarkdown s).map (fun seg => seg.text)).flatten
        = stripMarkers s)
    ∧ (∀ u : Str, u ≠ [] → (∀ c ∈ u, ¬(c = '*' ∨ c = '_')) →
        parseInlineMarkdown ('*' :: u)
          = [⟨u, { defaultStyle with italic := true }⟩])
    ∧ (∀ s : Str, (∀ c ∈ s, c = '*' ∨ c = '_') →
        parseInlineMarkdown s = []) := by
  refine ⟨?_, ?_, ?_⟩
  · intro s
    simpa using parseInlineAux_flatten s [] defaultStyle
  · intro u hu h
    match u with
    | [] => exact absurd rfl hu
    | v :: u2 =>
      have hv : ¬(v = '*' ∨ v = '_') := h v (by simp)
      have hv2 : ¬v = '*' := fun hc => hv (Or.inl hc)
      rw [parseInlineMarkdown]
      simp only [parseInlineAux, if_true, hv2, if_false, eq_self_iff_true,
        or_self, reduceIte]
      rw [parseInlineAux_noMarkers _ _ _ h]
      simp [flushSeg, defaultStyle]
  · intro s h
    rw [parseInlineMarkdown, parseInlineAux_allMarkers _ _ _ h, flushSeg_nil]

/-- C9 witness: the amended theorem applied to the concrete unterminated
input `*ab`: the trailing text is flushed under the open italic style. -/
theorem C9_witness :
    parseInlineMarkdown ('*' :: "ab".toList)
      = [⟨"ab".toList, { defaultStyle with italic := true }⟩] :=
  C9_tokenizer_fail_open.2.1 "ab".toList (by decide) (by decide)

/-! ### Claim C10: empty text is a no-op -/

/-- C10 (confirmed): called with empty (falsy) text, `parsePDFMarkdown`
returns the given `y` unchanged, performs no draw calls, and leaves the
document (font) state exactly as it was. -/
theorem C10_empty_text_frame (gw : MeasureFn) (doc : DocState) (x y : ℚ)
    (opts : PDFMarkdownOptions) :
    parsePDFMarkdown gw doc [] x y opts = (y, [], doc) := by
  simp [parsePDFMarkdown]

/-! ### Wrapper lemmas -/

/-- Dummy segment used as the `getLastD` default in characterizations. -/
def dummySeg : TextSegment := ⟨[], defaultStyle⟩

lemma addParts_from_single (ctx : WrapCtx) (parts : List TextSegment)
    (st : WrapState) (c : TextSegment) (hcur : st.cur = [c]) :
    (addParts ctx parts false st).committed
        = st.committed ++ ((c :: parts).dropLast.map (fun p => [p]))
    ∧ (addParts ctx parts false st).cur = [(c :: parts).getLast?.getD dummySeg] := by
  induction parts generalizing st c with
  | nil => simp [addParts, List.dropLast, hcur]
  | cons p ps ih =>
    rw [addParts]
    simp only [Bool.false_eq_true, if_false]
    have hc1 : (commitCurrentLine st).committed = st.committed ++ [st.cur] := by
      simp [commitCurrentLine, hcur]
    have hc2 : (commitCurrentLine st).cur = [] := by
      simp [commitCurrentLine, hcur]
    set st1 := commitCurrentLine st with hst1
    set doc2 := applyStyle st1.doc p.style st1.doc.fontSize ctx.font
    have hadd : (addWordToLine ctx { st1 with doc := doc2 } p
        (ctx.gw p.text doc2)).cur = [p] := by
      simp [addWordToLine, hc2]
    have haddc : (addWordToLine ctx { st1 with doc := doc2 } p
        (ctx.gw p.text doc2)).committed = st.committed ++ [[c]] := by
      simp [addWordToLine, hc2, hc1, hcur]
    obtain ⟨h1, h2⟩ := ih _ p hadd
    refine ⟨?_, ?_⟩
    · rw [h1, haddc]
      simp [List.dropLast, hcur]
    · rw [h2]
      cases ps <;> simp

lemma addParts_from_nil (ctx : WrapCtx) (parts : List TextSegment)
    (st : WrapState) (hcur : st.cur = []) (hne : parts ≠ []) :
    (addParts ctx parts true st).committed
        = st.committed ++ (parts.dropLast.map (fun p => [p]))
    ∧ (addParts ctx parts true st).cur = [parts.getLast?.getD dummySeg] := by
  match parts with
  | [] => exact absurd rfl hne
  | p :: ps =>
    rw [addParts]
    simp only [if_true]
    set doc2 := applyStyle st.doc p.style st.doc.fontSize ctx.font
    have hadd : (addWordToLine ctx { st with doc := doc2 } p
        (ctx.gw p.text doc2)).cur = [p] := by
      simp [addWordToLine, hcur]
    have haddc : (addWordToLine ctx { st with doc := doc2 } p
        (ctx.gw p.text doc2)).committed = st.committed := by
      simp [addWordToLine, hcur]
    obtain ⟨h1, h2⟩ := addParts_from_single ctx ps _ p hadd
    exact ⟨by rw [h1, haddc], h2⟩

lemma splitWordAux_facts (ctx : WrapCtx) (style : TextStyle) (l cur : Str)
    (doc : DocState) :
    (∀ p ∈ (splitWordAux ctx style l cur doc).1, p.text ≠ [] ∧ p.style = style)
    ∧ (((splitWordAux ctx style l cur doc).1.map (fun p => p.text)).flatten
        ++ (splitWordAux ctx style l cur doc).2.1 = cur ++ l) := by
  induction l generalizing cur doc with
  | nil => simp [splitWordAux]
  | cons c cs ih =>
    rw [splitWordAux]
    split
    · split
      · rename_i hov hc
        obtain ⟨f1, f2⟩ := ih [c] (applyStyle doc style doc.fontSize ctx.font)
        exact ⟨f1, by simpa [hc] using f2⟩
      · rename_i hov hc
        obtain ⟨f1, f2⟩ := ih [c] (applyStyle doc style doc.fontSize ctx.font)
        refine ⟨?_, ?_⟩
        · intro p hp
          rcases List.mem_cons.1 hp with h | h
          · subst h; exact ⟨hc, rfl⟩
          · exact f1 p h
        · simp only [List.map_cons, List.flatten_cons, List.append_assoc, f2]
          simp
    · rename_i hov
      obtain ⟨f1, f2⟩ := ih (cur ++ [c]) (applyStyle doc style doc.fontSize ctx.font)
      exact ⟨f1, by simpa using f2⟩

lemma splitWordIfNeeded_facts (ctx : WrapCtx) (word : Str) (style : TextStyle)
    (doc : DocState) :
    (∀ p ∈ (splitWordIfNeeded ctx word style doc).1, p.text ≠ [] ∧ p.style = style)
    ∧ (((splitWordIfNeeded ctx word style doc).1.map (fun p => p.text)).flatten
        = word)
    ∧ (word ≠ [] → (splitWordIfNeeded ctx word style doc).1 ≠ []) := by
  obtain ⟨f1, f2⟩ := splitWordAux_facts ctx style word [] doc
  rw [splitWordIfNeeded]
  by_cases h : (splitWordAux ctx style word [] doc).2.1 = []
  · refine ⟨?_, ?_, ?_⟩
    · intro p hp
      simp only [h, if_true, eq_self_iff_true, List.append_nil] at hp
      exact f1 p hp
    · simp only [h, if_true, eq_self_iff_true, List.append_nil]
      simpa [h] using f2
    · intro hw hcon
      simp only [h, if_true, eq_self_iff_true, List.append_nil] at hcon
      rw [hcon] at f2
      simp [h] at f2
      exact hw f2
  · refine ⟨?_, ?_, ?_⟩
    · intro p hp
      simp only [h, if_false, List.mem_append, List.mem_singleton] at hp
      rcases hp with hp | hp
      · exact f1 p hp
      · subst hp; exact ⟨h, rfl⟩
    · simp only [h, if_false, List.map_append, List.flatten_append]
      simpa using f2
    · intro _
      simp [h]

/-! ### Claim C1: greedy packing decision -/

/-- C1 (confirmed): the wrapper's effective width is
`maxWidth - baseIndentation * fontSize` (the document's font size at entry),
and for each non-empty word the decision is exactly
`currentWidth + (spaceWidth if the line is non-empty) + wordWidth ≤
availableWidth`: if it holds the word is appended to the current line (with
an inserted space segment when the line was non-empty); otherwise the current
line (if non-empty) is closed, and the word starts the new line — as a whole
when it fits a line by itself (and the line was non-empty), and otherwise
split into fragments, all but the last of which are committed as forced
single-fragment lines. -/
theorem C1_greedy_packing (gw : MeasureFn) (entryDoc : DocState)
    (maxWidth baseIndentation : ℚ) (font : Str) (st : WrapState)
    (segStyle : TextStyle) (word : Str) (hw : word ≠ []) :
    (mkWrapCtx gw entryDoc maxWidth baseIndentation font).availableWidth
        = maxWidth - baseIndentation * entryDoc.fontSize
    ∧ (let ctx := mkWrapCtx gw entryDoc maxWidth baseIndentation font
       let wordSeg : TextSegment :=
         ⟨word, { segStyle with indentation := ctx.baseIndentation }⟩
       let doc1 := applyStyle st.doc wordSeg.style st.doc.fontSize ctx.font
       let w := ctx.gw word doc1
       ((st.curWidth + (if st.cur = [] then 0 else ctx.spaceWidth) + w
            ≤ ctx.availableWidth →
          (processWord ctx st segStyle word).committed = st.committed
          ∧ (processWord ctx st segStyle word).cur
              = st.cur ++ (if st.cur = [] then []
                  else [⟨[' '], wordSeg.style⟩]) ++ [wordSeg])
        ∧ (¬(st.curWidth + (if st.cur = [] then 0 else ctx.spaceWidth) + w
            ≤ ctx.availableWidth) →
          let parts := if st.cur ≠ [] ∧ w ≤ ctx.availableWidth then [wordSeg]
            else (splitWordIfNeeded ctx word wordSeg.style doc1).1
          parts ≠ []
          ∧ (processWord ctx st segStyle word).committed
              = st.committed ++ (if st.cur = [] then [] else [st.cur])
                ++ parts.dropLast.map (fun p => [p])
          ∧ (processWord ctx st segStyle word).cur
              = [parts.getLast?.getD dummySeg]))) := by
  refine ⟨rfl, ?_, ?_⟩
  · intro hfits
    rw [processWord]
    simp only [hw, if_false, hfits, if_true]
    by_cases hc : st.cur = [] <;> simp [addWordToLine, hc]
  · intro hfits
    rw [processWord]
    simp only [hw, if_false, hfits]
    set ctx := mkWrapCtx gw entryDoc maxWidth baseIndentation font
    set wordSeg : TextSegment :=
      ⟨word, { segStyle with indentation := ctx.baseIndentation }⟩
    set doc1 := applyStyle st.doc wordSeg.style st.doc.fontSize ctx.font
    by_cases hc : st.cur = []
    · simp only [hc, if_true, eq_self_iff_true, not_true, false_and, if_false]
      have hne := (splitWordIfNeeded_facts ctx word wordSeg.style doc1).2.2 hw
      obtain ⟨h1, h2⟩ := addParts_from_nil ctx
        (splitWordIfNeeded ctx word wordSeg.style doc1).1
        { st with doc := (splitWordIfNeeded ctx word wordSeg.style doc1).2 }
        (by simpa using hc) hne
      constructor
      · exact hne
      · constructor
        · simpa [hc] using h1
        · simpa [hc] using h2
    · have hcc : (commitCurrentLine { st with doc := doc1 }).cur = [] := by
        simp [commitCurrentLine, hc]
      have hccc : (commitCurrentLine { st with doc := doc1 }).committed
          = st.committed ++ [st.cur] := by
        simp [commitCurrentLine, hc]
      have hdoc : (commitCurrentLine { st with doc := doc1 }).doc = doc1 := by
        simp [commitCurrentLine, hc]
      by_cases hwa : ctx.gw word doc1 ≤ ctx.availableWidth
      · simp only [hc, hwa, if_false, if_true, not_false_iff, true_and, and_true]
        refine ⟨by simp [hc], ?_, ?_⟩
        · simp [addWordToLine, hcc, commitCurrentLine, hc, List.dropLast]
        · simp [addWordToLine, hcc, hc]
      · simp only [hc, hwa, if_false, not_false_iff, true_and, and_false]
        rw [hdoc]
        have hne := (splitWordIfNeeded_facts ctx word wordSeg.style doc1).2.2 hw
        obtain ⟨h1, h2⟩ := addParts_from_nil ctx
          (splitWordIfNeeded ctx word wordSeg.style doc1).1
          { commitCurrentLine { st with doc := doc1 } with
            doc := (splitWordIfNeeded ctx word wordSeg.style doc1).2 }
          (by simpa using hcc) hne
        refine ⟨hne, ?_, ?_⟩
        · rw [h1, hccc]
          try simp
        · exact h2

/-- C1 witness: the greedy step applied to the concrete word `ab` on an empty
line with `maxWidth = 100` under the one-unit-per-character measurement: the
word fits, no line is closed, and the word is appended. -/
theorem C1_witness :
    (processWord (mkWrapCtx gwLen doc0 100 0 "f".toList) ⟨doc0, [], [], 0⟩
        defaultStyle "ab".toList).committed = ([] : List (List TextSegment)) := by
  have h := (C1_greedy_packing gwLen doc0 100 0 "f".toList ⟨doc0, [], [], 0⟩
    defaultStyle "ab".toList (by decide)).2.1
  exact (h (by norm_num [mkWrapCtx, gwLen, doc0])).1

/-! ### Claim C4: forced splitting consumes at least one character per
fragment and wrapping is linear in the input size -/

lemma length_le_flatten_length (ps : List TextSegment)
    (h : ∀ p ∈ ps, p.text ≠ []) :
    ps.length ≤ ((ps.map (fun p => p.text)).flatten).length := by
  induction ps with
  | nil => simp
  | cons p rest ih =>
    have hp : p.text ≠ [] := (h p (by simp))
    have h1 : 1 ≤ p.text.length := List.length_pos.2 hp
    have := ih (fun q hq => h q (by simp [hq]))
    simp only [List.map_cons, List.flatten_cons, List.length_append,
      List.length_cons]
    omega

lemma splitChar_ne_nil (c : Char) (l : Str) : splitChar c l ≠ [] := by
  induction l with
  | nil => simp [splitChar]
  | cons d rest ih =>
    rw [splitChar]
    split
    · simp
    · split
      · simp
      · simp

lemma splitChar_length_sum (c : Char) (l : Str) :
    ((splitChar c l).map List.length).sum ≤ l.length := by
  induction l with
  | nil => simp [splitChar]
  | cons d rest ih =>
    rw [splitChar]
    split
    · simpa using Nat.le_succ_of_le ih
    · rename_i hd
      rcases h : splitChar c rest with _ | ⟨w, ws⟩
      · exact absurd h (splitChar_ne_nil c rest)
      · rw [h] at ih
        simp only [List.map_cons, List.sum_cons, List.length_cons] at ih ⊢
        omega

/-- The number of non-empty lines held in a wrap state. -/
def lineCount (st : WrapState) : ℕ :=
  st.committed.length + (if st.cur = [] then 0 else 1)

lemma addParts_lineCount (ctx : WrapCtx) (parts : List TextSegment)
    (st : WrapState) (hcur : st.cur = []) (hne : parts ≠ []) :
    lineCount (addParts ctx parts true st)
      = st.committed.length + parts.length := by
  obtain ⟨h1, h2⟩ := addParts_from_nil ctx parts st hcur hne
  have hlen : 1 ≤ parts.length := List.length_pos.2 hne
  simp only [lineCount, h1, h2, List.length_append, List.length_map,
    List.length_dropLast, List.cons_ne_nil, if_false]
  omega

lemma processWord_lineCount (ctx : WrapCtx) (st : WrapState)
    (sty : TextStyle) (w : Str) :
    lineCount (processWord ctx st sty w) ≤ lineCount st + w.length := by
  by_cases hw : w = []
  · simp [processWord, hw]
  · have hlen : 1 ≤ w.length := List.length_pos.2 hw
    rw [processWord]
    simp only [hw, if_false]
    by_cases hfits : st.curWidth + (if st.cur = [] then 0 else ctx.spaceWidth)
        + ctx.gw w (applyStyle st.doc
          { sty with indentation := ctx.baseIndentation } st.doc.fontSize
          ctx.font) ≤ ctx.availableWidth
    · simp only [hfits, if_true]
      by_cases hc : st.cur = [] <;>
        simp [addWordToLine, lineCount, hc] <;> omega
    · simp only [hfits, if_false]
      by_cases hc : st.cur = []
      · simp only [hc, if_true, eq_self_iff_true]
        set doc1 := applyStyle st.doc
          { sty with indentation := ctx.baseIndentation } st.doc.fontSize
          ctx.font
        set sty1 : TextStyle := { sty with indentation := ctx.baseIndentation }
        have hfacts := splitWordIfNeeded_facts ctx w sty1 doc1
        have hne := hfacts.2.2 hw
        rw [addParts_lineCount ctx _ _ (by simpa using hc) hne]
        have hple : (splitWordIfNeeded ctx w sty1 doc1).1.length ≤ w.length := by
          have := length_le_flatten_length (splitWordIfNeeded ctx w sty1 doc1).1
            (fun p hp => (hfacts.1 p hp).1)
          rwa [hfacts.2.1] at this
        simp only [lineCount, hc, if_true, eq_self_iff_true]
        omega
      · set doc1 := applyStyle st.doc
          { sty with indentation := ctx.baseIndentation } st.doc.fontSize
          ctx.font
        set sty1 : TextStyle := { sty with indentation := ctx.baseIndentation }
        have hcc : (commitCurrentLine { st with doc := doc1 }).cur = [] := by
          simp [commitCurrentLine, hc]
        have hccc : (commitCurrentLine { st with doc := doc1 }).committed
            = st.committed ++ [st.cur] := by
          simp [commitCurrentLine, hc]
        have hdoc : (commitCurrentLine { st with doc := doc1 }).doc = doc1 := by
          simp [commitCurrentLine, hc]
        simp only [hc, if_false]
        by_cases hwa : ctx.gw w doc1 ≤ ctx.availableWidth
        · simp only [hwa, if_true]
          simp [addWordToLine, hcc, hccc, lineCount, hc]
          omega
        · simp only [hwa, if_false]
          rw [hdoc]
          have hfacts := splitWordIfNeeded_facts ctx w sty1 doc1
          have hne := hfacts.2.2 hw
          rw [addParts_lineCount ctx _ _ (by simpa using hcc) hne]
          have hple : (splitWordIfNeeded ctx w sty1 doc1).1.length ≤ w.length := by
            have := length_le_flatten_length (splitWordIfNeeded ctx w sty1 doc1).1
              (fun p hp => (hfacts.1 p hp).1)
            rwa [hfacts.2.1] at this
          simp only [hccc, List.length_append, List.length_singleton,
            lineCount, hc, if_false]
          omega

lemma foldl_processWord_lineCount (ctx : WrapCtx) (sty : TextStyle) :
    ∀ (ws : List Str) (st : WrapState),
      lineCount (ws.foldl (fun st w => processWord ctx st sty w) st)
        ≤ lineCount st + (ws.map List.length).sum := by
  intro ws
  induction ws with
  | nil => intro st; simp
  | cons w rest ih =>
    intro st
    calc lineCount ((w :: rest).foldl (fun st w => processWord ctx st sty w) st)
        = lineCount (rest.foldl (fun st w => processWord ctx st sty w)
            (processWord ctx st sty w)) := by simp
      _ ≤ lineCount (processWord ctx st sty w) + (rest.map List.length).sum :=
          ih _
      _ ≤ (lineCount st + w.length) + (rest.map List.length).sum :=
          Nat.add_le_add_right (processWord_lineCount ctx st sty w) _
      _ = lineCount st + ((w :: rest).map List.length).sum := by
          simp [Nat.add_assoc]

lemma processSegment_lineCount (ctx : WrapCtx) (st : WrapState)
    (seg : TextSegment) :
    lineCount (processSegment ctx st seg) ≤ lineCount st + seg.text.length := by
  calc lineCount (processSegment ctx st seg)
      ≤ lineCount st + ((splitChar ' ' seg.text).map List.length).sum :=
        foldl_processWord_lineCount ctx seg.style _ st
    _ ≤ lineCount st + seg.text.length :=
        Nat.add_le_add_left (splitChar_length_sum ' ' seg.text) _

lemma foldl_processSegment_lineCount (ctx : WrapCtx) :
    ∀ (segs : List TextSegment) (st : WrapState),
      lineCount (segs.foldl (fun st seg => processSegment ctx st seg) st)
        ≤ lineCount st + (segs.map (fun s => s.text.length)).sum := by
  intro segs
  induction segs with
  | nil => intro st; simp
  | cons seg rest ih =>
    intro st
    calc lineCount ((seg :: rest).foldl (fun st seg => processSegment ctx st seg) st)
        = lineCount (rest.foldl (fun st seg => processSegment ctx st seg)
            (processSegment ctx st seg)) := by simp
      _ ≤ lineCount (processSegment ctx st seg)
            + (rest.map (fun s => s.text.length)).sum := ih _
      _ ≤ (lineCount st + seg.text.length)
            + (rest.map (fun s => s.text.length)).sum :=
          Nat.add_le_add_right (processSegment_lineCount ctx st seg) _
      _ = lineCount st + ((seg :: rest).map (fun s => s.text.length)).sum := by
          simp [Nat.add_assoc]

/-- C4 (confirmed): character-level splitting and wrapping are terminating
and linear.  (In this embedding `splitWordIfNeeded` and `splitTextToLines`
are structurally recursive total functions, so termination holds by
construction; the content of the claim is quantitative.)  For every
measurement function, style, document state and word — including measurements
that report every character as wider than the available width —
`splitWordIfNeeded` emits only non-empty fragments, its fragments concatenate
exactly to the word (no character lost or duplicated), and it emits at most
`word.length` fragments; consequently the wrapper emits at most one line per
input character: the number of lines produced by `splitTextToLines` is
bounded by the total length of the segment texts. -/
theorem C4_split_terminates_linear :
    (∀ (ctx : WrapCtx) (word : Str) (style : TextStyle) (doc : DocState),
      (∀ p ∈ (splitWordIfNeeded ctx word style doc).1, p.text ≠ [])
      ∧ (((splitWordIfNeeded ctx word style doc).1.map (fun p => p.text)).flatten
          = word)
      ∧ (splitWordIfNeeded ctx word style doc).1.length ≤ word.length)
    ∧ (∀ (gw : MeasureFn) (doc : DocState) (segments : List TextSegment)
        (maxWidth baseIndentation : ℚ) (font : Str),
      (splitTextToLines gw doc segments maxWidth baseIndentation font).1.length
        ≤ (segments.map (fun s => s.text.length)).sum) := by
  constructor
  · intro ctx word style doc
    have hfacts := splitWordIfNeeded_facts ctx word style doc
    refine ⟨fun p hp => (hfacts.1 p hp).1, hfacts.2.1, ?_⟩
    have := length_le_flatten_length (splitWordIfNeeded ctx word style doc).1
      (fun p hp => (hfacts.1 p hp).1)
    rwa [hfacts.2.1] at this
  · intro gw doc segments maxWidth baseIndentation font
    have h := foldl_processSegment_lineCount
      (mkWrapCtx gw doc maxWidth baseIndentation font) segments ⟨doc, [], [], 0⟩
    rw [splitTextToLines]
    have hinit : lineCount ⟨doc, [], [], 0⟩ = 0 := by simp [lineCount]
    rw [hinit, Nat.zero_add] at h
    set st := segments.foldl (fun st seg => processSegment
      (mkWrapCtx gw doc maxWidth baseIndentation font) st seg) ⟨doc, [], [], 0⟩
    by_cases hc : st.cur = []
    · simpa [hc, lineCount] using h
    · simpa [hc, lineCount] using h

/-! ### Claim C2: width bound for produced lines -/

lemma applyStyle_pageHeight (d : DocState) (s : TextStyle) (b : ℚ) (f : Str) :
    (applyStyle d s b f).pageHeight = d.pageHeight := rfl

lemma applyStyle_applyStyle (d : DocState) (s1 s2 : TextStyle) (b1 b2 : ℚ)
    (f1 f2 : Str) :
    applyStyle (applyStyle d s1 b1 f1) s2 b2 f2 = applyStyle d s2 b2 f2 := rfl

lemma applyStyle_congr (d d2 : DocState) (s : TextStyle) (f : Str)
    (hf : d.fontSize = d2.fontSize) (hp : d.pageHeight = d2.pageHeight) :
    applyStyle d s d.fontSize f = applyStyle d2 s d2.fontSize f := by
  simp [applyStyle, hf, hp]

lemma applyStyle_fontSize_of_heading_none (d : DocState) (s : TextStyle)
    (b : ℚ) (f : Str) (h : s.heading = none) :
    (applyStyle d s b f).fontSize = b := by
  simp [applyStyle, h]

lemma measureTotalWidth_fst (gw : MeasureFn) (fs : ℚ) (font : Str) :
    ∀ (line : List TextSegment) (d : DocState),
      (measureTotalWidth gw fs font line d).1
        = (line.map (fun s => gw s.text (applyStyle d s.style fs font))).sum := by
  intro line
  induction line with
  | nil => intro d; simp [measureTotalWidth]
  | cons s rest ih =>
    intro d
    rw [measureTotalWidth]
    simp only [List.map_cons, List.sum_cons, ih (applyStyle d s.style fs font),
      applyStyle_applyStyle]

/-- The invariant maintained by the wrapping loop, relative to the wrap
context `ctx` and the entry document state `d0`: the document's font size and
page height are unchanged (all segment styles it applies have a null
heading), the tracked `currentLineWidth` equals the sum of the re-measured
segment widths of the current line, and every line — committed or current —
either fits the available width or is a single (forced) segment. -/
structure WInv (ctx : WrapCtx) (d0 : DocState) (st : WrapState) : Prop where
  hfs : st.doc.fontSize = d0.fontSize
  hph : st.doc.pageHeight = d0.pageHeight
  hheads : ∀ s ∈ st.cur, s.style.heading = none
  hsum : (st.cur.map (fun s =>
      ctx.gw s.text (applyStyle d0 s.style d0.fontSize ctx.font))).sum
    = st.curWidth
  hzero : st.cur = [] → st.curWidth = 0
  hbound : st.curWidth ≤ ctx.availableWidth ∨ st.cur.length = 1 ∨ st.cur = []
  hcommitted : ∀ line ∈ st.committed,
    (line.map (fun s =>
        ctx.gw s.text (applyStyle d0 s.style d0.fontSize ctx.font))).sum
      ≤ ctx.availableWidth ∨ line.length = 1

lemma WInv_commit (ctx : WrapCtx) (d0 : DocState) (st : WrapState)
    (h : WInv ctx d0 st) : WInv ctx d0 (commitCurrentLine st) := by
  by_cases hc : st.cur = []
  · simpa [commitCurrentLine, hc] using h
  · refine ⟨?_, ?_, ?_, ?_, ?_, ?_, ?_⟩ <;>
      simp only [commitCurrentLine, hc, if_false]
    · exact h.hfs
    · exact h.hph
    · simp
    · simp
    · simp
    · simp
    · intro line hline
      simp only [List.mem_append, List.mem_singleton] at hline
      rcases hline with h1 | h1
      · exact h.hcommitted line h1
      · subst h1
        rw [h.hsum]
        rcases h.hbound with hb | hb | hb
        · exact Or.inl hb
        · exact Or.inr hb
        · exact absurd hb hc

lemma WInv_addWordToLine (ctx : WrapCtx) (d0 : DocState) (st : WrapState)
    (seg : TextSegment) (w : ℚ)
    (h : WInv ctx d0 st)
    (hsty : seg.style.heading = none)
    (hw : w = ctx.gw seg.text (applyStyle d0 seg.style d0.fontSize ctx.font))
    (hsp : ctx.spaceWidth
      = ctx.gw [' '] (applyStyle d0 seg.style d0.fontSize ctx.font))
    (hfit : st.cur ≠ [] →
      st.curWidth + ctx.spaceWidth + w ≤ ctx.availableWidth) :
    WInv ctx d0 (addWordToLine ctx st seg w) := by
  by_cases hc : st.cur = []
  · refine ⟨?_, ?_, ?_, ?_, ?_, ?_, ?_⟩ <;>
      simp only [addWordToLine, hc, if_true, eq_self_iff_true]
    · exact h.hfs
    · exact h.hph
    · intro s hs
      simp only [List.mem_singleton] at hs
      subst hs; exact hsty
    · simp [hw, h.hzero hc]
    · simp
    · simp
    · exact h.hcommitted
  · refine ⟨?_, ?_, ?_, ?_, ?_, ?_, ?_⟩ <;>
      simp only [addWordToLine, hc, if_false]
    · exact h.hfs
    · exact h.hph
    · intro s hs
      simp only [List.mem_append, List.mem_cons, List.mem_singleton] at hs
      rcases hs with hs | hs | hs
      · exact h.hheads s hs
      · subst hs; exact hsty
      · simp at hs; subst hs; exact hsty
    · simp only [List.map_append, List.sum_append, h.hsum, List.map_cons,
        List.sum_cons, List.map_nil, List.sum_nil]
      rw [← hw, ← hsp]
      ring
    · simp [hc]
    · exact Or.inl (by simpa using hfit hc)
    · exact h.hcommitted

lemma commitCurrentLine_cur (st : WrapState) :
    (commitCurrentLine st).cur = [] := by
  by_cases hc : st.cur = [] <;> simp [commitCurrentLine, hc]

lemma commitCurrentLine_doc (st : WrapState) :
    (commitCurrentLine st).doc = st.doc := by
  by_cases hc : st.cur = [] <;> simp [commitCurrentLine, hc]

lemma WInv_setDoc (ctx : WrapCtx) (d0 : DocState) (st : WrapState)
    (d2 : DocState) (h : WInv ctx d0 st) (hfs : d2.fontSize = d0.fontSize)
    (hph : d2.pageHeight = d0.pageHeight) :
    WInv ctx d0 { st with doc := d2 } :=
  ⟨hfs, hph, h.hheads, h.hsum, h.hzero, h.hbound, h.hcommitted⟩

lemma splitWordAux_doc (ctx : WrapCtx) (style : TextStyle)
    (hsty : style.heading = none) :
    ∀ (l cur : Str) (doc : DocState),
      (splitWordAux ctx style l cur doc).2.2.fontSize = doc.fontSize
      ∧ (splitWordAux ctx style l cur doc).2.2.pageHeight = doc.pageHeight := by
  intro l
  induction l with
  | nil => intro cur doc; simp [splitWordAux]
  | cons c cs ih =>
    intro cur doc
    have hfs2 : (applyStyle doc style doc.fontSize ctx.font).fontSize
        = doc.fontSize := applyStyle_fontSize_of_heading_none _ _ _ _ hsty
    have hph2 : (applyStyle doc style doc.fontSize ctx.font).pageHeight
        = doc.pageHeight := applyStyle_pageHeight _ _ _ _
    rw [splitWordAux]
    split
    · split
      · obtain ⟨i1, i2⟩ := ih [c] (applyStyle doc style doc.fontSize ctx.font)
        exact ⟨by rw [i1, hfs2], by rw [i2, hph2]⟩
      · obtain ⟨i1, i2⟩ := ih [c] (applyStyle doc style doc.fontSize ctx.font)
        exact ⟨by simpa [hfs2] using i1, by simpa [hph2] using i2⟩
    · obtain ⟨i1, i2⟩ := ih (cur ++ [c]) (applyStyle doc style doc.fontSize ctx.font)
      exact ⟨by rw [i1, hfs2], by rw [i2, hph2]⟩

lemma splitWordAux_parts_fit (ctx : WrapCtx) (style : TextStyle)
    (d0 : DocState) (hsty : style.heading = none) :
    ∀ (l cur : Str) (doc : DocState),
      doc.fontSize = d0.fontSize → doc.pageHeight = d0.pageHeight →
      (cur = [] ∨ cur.length = 1 ∨
        ctx.gw cur (applyStyle d0 style d0.fontSize ctx.font)
          ≤ ctx.availableWidth) →
      (∀ p ∈ (splitWordAux ctx style l cur doc).1,
          p.text.length = 1 ∨
          ctx.gw p.text (applyStyle d0 style d0.fontSize ctx.font)
            ≤ ctx.availableWidth)
      ∧ ((splitWordAux ctx style l cur doc).2.1 = [] ∨
          (splitWordAux ctx style l cur doc).2.1.length = 1 ∨
          ctx.gw (splitWordAux ctx style l cur doc).2.1
            (applyStyle d0 style d0.fontSize ctx.font) ≤ ctx.availableWidth) := by
  intro l
  induction l with
  | nil =>
    intro cur doc _ _ hcur
    exact ⟨by simp [splitWordAux], by simpa [splitWordAux] using hcur⟩
  | cons c cs ih =>
    intro cur doc hfs hph hcur
    have hcongr : applyStyle doc style doc.fontSize ctx.font
        = applyStyle d0 style d0.fontSize ctx.font :=
      applyStyle_congr doc d0 style ctx.font hfs hph
    have hfs2 : (applyStyle doc style doc.fontSize ctx.font).fontSize
        = d0.fontSize := by
      rw [applyStyle_fontSize_of_heading_none _ _ _ _ hsty, hfs]
    have hph2 : (applyStyle doc style doc.fontSize ctx.font).pageHeight
        = d0.pageHeight := by rw [applyStyle_pageHeight, hph]
    rw [splitWordAux]
    split
    · split
      · exact ih [c] (applyStyle doc style doc.fontSize ctx.font) hfs2 hph2
          (Or.inr (Or.inl rfl))
      · rename_i hov hc
        obtain ⟨f1, f2⟩ := ih [c] (applyStyle doc style doc.fontSize ctx.font)
          hfs2 hph2 (Or.inr (Or.inl rfl))
        refine ⟨?_, f2⟩
        intro p hp
        rcases List.mem_cons.1 hp with h1 | h1
        · subst h1
          rcases hcur with h2 | h2 | h2
          · exact absurd h2 hc
          · exact Or.inl h2
          · exact Or.inr h2
        · exact f1 p h1
    · rename_i hov
      apply ih (cur ++ [c]) (applyStyle doc style doc.fontSize ctx.font)
        hfs2 hph2
      refine Or.inr (Or.inr ?_)
      rw [← hcongr]
      exact le_of_not_lt hov

lemma splitWordIfNeeded_parts_fit (ctx : WrapCtx) (word : Str)
    (style : TextStyle) (doc : DocState) (d0 : DocState)
    (hsty : style.heading = none) (hfs : doc.fontSize = d0.fontSize)
    (hph : doc.pageHeight = d0.pageHeight) :
    ∀ p ∈ (splitWordIfNeeded ctx word style doc).1,
      p.text.length = 1 ∨
      ctx.gw p.text (applyStyle d0 style d0.fontSize ctx.font)
        ≤ ctx.availableWidth := by
  obtain ⟨f1, f2⟩ := splitWordAux_parts_fit ctx style d0 hsty word [] doc
    hfs hph (Or.inl rfl)
  intro p hp
  rw [splitWordIfNeeded] at hp
  rcases List.mem_append.1 hp with h1 | h1
  · exact f1 p h1
  · by_cases hl : (splitWordAux ctx style word [] doc).2.1 = []
    · simp [hl] at h1
    · simp only [hl, if_false, List.mem_singleton] at h1
      subst h1
      rcases f2 with h2 | h2 | h2
      · exact absurd h2 hl
      · exact Or.inl h2
      · exact Or.inr h2

lemma splitWordIfNeeded_doc (ctx : WrapCtx) (word : Str) (style : TextStyle)
    (doc : DocState) (hsty : style.heading = none) :
    (splitWordIfNeeded ctx word style doc).2.fontSize = doc.fontSize
    ∧ (splitWordIfNeeded ctx word style doc).2.pageHeight = doc.pageHeight := by
  rw [splitWordIfNeeded]
  exact splitWordAux_doc ctx style hsty word [] doc

lemma WInv_addParts (ctx : WrapCtx) (d0 : DocState)
    (hspace : ∀ d1 d2 : DocState, ctx.gw [' '] d1 = ctx.gw [' '] d2)
    (hsw : ctx.spaceWidth = ctx.gw [' '] d0) :
    ∀ (parts : List TextSegment) (isFirst : Bool) (st : WrapState),
      WInv ctx d0 st →
      (isFirst = true → st.cur = []) →
      (∀ p ∈ parts, p.style.heading = none ∧
        (p.text.length = 1 ∨
          ctx.gw p.text (applyStyle d0 p.style d0.fontSize ctx.font)
            ≤ ctx.availableWidth)) →
      WInv ctx d0 (addParts ctx parts isFirst st) := by
  intro parts
  induction parts with
  | nil => intro isFirst st h _ _; simpa [addParts] using h
  | cons p ps ih =>
    intro isFirst st h hfirst hparts
    obtain ⟨hphead, _⟩ := hparts p (by simp)
    rw [addParts]
    have hcur1 : (if isFirst then st else commitCurrentLine st).cur = [] := by
      cases isFirst
      · simp [commitCurrentLine_cur]
      · simpa using hfirst rfl
    have h1 : WInv ctx d0 (if isFirst then st else commitCurrentLine st) := by
      cases isFirst
      · simpa using WInv_commit ctx d0 st h
      · simpa using h
    set st1 := if isFirst then st else commitCurrentLine st
    have hfs2 : (applyStyle st1.doc p.style st1.doc.fontSize ctx.font).fontSize
        = d0.fontSize := by
      rw [applyStyle_fontSize_of_heading_none _ _ _ _ hphead, h1.hfs]
    have hph2 : (applyStyle st1.doc p.style st1.doc.fontSize ctx.font).pageHeight
        = d0.pageHeight := by rw [applyStyle_pageHeight, h1.hph]
    have hcongr : applyStyle st1.doc p.style st1.doc.fontSize ctx.font
        = applyStyle d0 p.style d0.fontSize ctx.font :=
      applyStyle_congr st1.doc d0 p.style ctx.font h1.hfs h1.hph
    apply ih false _ ?_ (by simp) (fun q hq => hparts q (by simp [hq]))
    apply WInv_addWordToLine ctx d0 _ p _ (WInv_setDoc ctx d0 st1 _ h1 hfs2 hph2)
      hphead (by rw [hcongr]) (by rw [hsw, hspace d0
        (applyStyle d0 p.style d0.fontSize ctx.font)])
    intro hcon
    exact absurd hcur1 hcon

lemma WInv_processWord (ctx : WrapCtx) (d0 : DocState)
    (hspace : ∀ d1 d2 : DocState, ctx.gw [' '] d1 = ctx.gw [' '] d2)
    (hsw : ctx.spaceWidth = ctx.gw [' '] d0)
    (st : WrapState) (segStyle : TextStyle) (w : Str)
    (hsty : segStyle.heading = none) (h : WInv ctx d0 st) :
    WInv ctx d0 (processWord ctx st segStyle w) := by
  by_cases hw : w = []
  · simpa [processWord, hw] using h
  · rw [processWord]
    simp only [hw, if_false]
    set sty1 : TextStyle := { segStyle with indentation := ctx.baseIndentation }
      with hsty1
    have hsty1h : sty1.heading = none := hsty
    set doc1 := applyStyle st.doc sty1 st.doc.fontSize ctx.font with hdoc1
    have hfs1 : doc1.fontSize = d0.fontSize := by
      rw [hdoc1, applyStyle_fontSize_of_heading_none _ _ _ _ hsty1h, h.hfs]
    have hph1 : doc1.pageHeight = d0.pageHeight := by
      rw [hdoc1, applyStyle_pageHeight, h.hph]
    have hcongr : doc1 = applyStyle d0 sty1 d0.fontSize ctx.font := by
      rw [hdoc1, applyStyle_congr st.doc d0 sty1 ctx.font h.hfs h.hph]
    have h1 : WInv ctx d0 { st with doc := doc1 } :=
      WInv_setDoc ctx d0 st doc1 h hfs1 hph1
    by_cases hfits : st.curWidth + (if st.cur = [] then 0 else ctx.spaceWidth)
        + ctx.gw w doc1 ≤ ctx.availableWidth
    · rw [if_pos hfits]
      apply WInv_addWordToLine ctx d0 _ _ _ h1 hsty1h (by rw [hcongr])
        (by rw [hsw, hspace d0 (applyStyle d0 sty1 d0.fontSize ctx.font)])
      intro hcn
      simp only [hcn, if_false] at hfits
      exact hfits
    · rw [if_neg hfits]
      by_cases hc : st.cur = []
      · rw [if_pos hc]
        apply WInv_addParts ctx d0 hspace hsw
          (splitWordIfNeeded ctx w sty1 doc1).1 true
          { st with doc := (splitWordIfNeeded ctx w sty1 doc1).2 }
          ?_ (fun _ => hc) ?_
        · apply WInv_setDoc ctx d0 _ _ h
          · rw [(splitWordIfNeeded_doc ctx w sty1 doc1 hsty1h).1, hfs1]
          · rw [(splitWordIfNeeded_doc ctx w sty1 doc1 hsty1h).2, hph1]
        · intro p hp
          refine ⟨?_, ?_⟩
          · rw [((splitWordIfNeeded_facts ctx w sty1 doc1).1 p hp).2]
            exact hsty1h
          · have := splitWordIfNeeded_parts_fit ctx w sty1 doc1 d0 hsty1h
              hfs1 hph1 p hp
            rw [((splitWordIfNeeded_facts ctx w sty1 doc1).1 p hp).2]
            exact this
      · rw [if_neg hc]
        have h2 : WInv ctx d0 (commitCurrentLine { st with doc := doc1 }) :=
          WInv_commit ctx d0 _ h1
        have hdoc2 : (commitCurrentLine { st with doc := doc1 }).doc = doc1 :=
          commitCurrentLine_doc _
        by_cases hwa : ctx.gw w doc1 ≤ ctx.availableWidth
        · rw [if_pos hwa]
          apply WInv_addWordToLine ctx d0 _ _ _ h2 hsty1h (by rw [hcongr])
            (by rw [hsw, hspace d0 (applyStyle d0 sty1 d0.fontSize ctx.font)])
            (fun hcn => absurd (commitCurrentLine_cur _) hcn)
        · rw [if_neg hwa]
          rw [hdoc2]
          apply WInv_addParts ctx d0 hspace hsw
            (splitWordIfNeeded ctx w sty1 doc1).1 true
            { commitCurrentLine { st with doc := doc1 } with
              doc := (splitWordIfNeeded ctx w sty1 doc1).2 }
            ?_ (fun _ => commitCurrentLine_cur _) ?_
          · apply WInv_setDoc ctx d0 _ _ h2
            · rw [(splitWordIfNeeded_doc ctx w sty1 _ hsty1h).1, hfs1]
            · rw [(splitWordIfNeeded_doc ctx w sty1 _ hsty1h).2, hph1]
          · intro p hp
            refine ⟨?_, ?_⟩
            · rw [((splitWordIfNeeded_facts ctx w sty1 doc1).1 p hp).2]
              exact hsty1h
            · have := splitWordIfNeeded_parts_fit ctx w sty1 doc1 d0 hsty1h
                hfs1 hph1 p hp
              rw [((splitWordIfNeeded_facts ctx w sty1 doc1).1 p hp).2]
              exact this

lemma WInv_processSegment (ctx : WrapCtx) (d0 : DocState)
    (hspace : ∀ d1 d2 : DocState, ctx.gw [' '] d1 = ctx.gw [' '] d2)
    (hsw : ctx.spaceWidth = ctx.gw [' '] d0)
    (seg : TextSegment) (hsty : seg.style.heading = none) :
    ∀ (ws : List Str) (st : WrapState), WInv ctx d0 st →
      WInv ctx d0 (ws.foldl (fun st w => processWord ctx st seg.style w) st) := by
  intro ws
  induction ws with
  | nil => intro st h; simpa using h
  | cons w rest ih =>
    intro st h
    simp only [List.foldl_cons]
    exact ih _ (WInv_processWord ctx d0 hspace hsw st seg.style w hsty h)

lemma WInv_foldSegments (ctx : WrapCtx) (d0 : DocState)
    (hspace : ∀ d1 d2 : DocState, ctx.gw [' '] d1 = ctx.gw [' '] d2)
    (hsw : ctx.spaceWidth = ctx.gw [' '] d0) :
    ∀ (segs : List TextSegment), (∀ seg ∈ segs, seg.style.heading = none) →
      ∀ (st : WrapState), WInv ctx d0 st →
        WInv ctx d0 (segs.foldl (fun st seg => processSegment ctx st seg) st) := by
  intro segs
  induction segs with
  | nil => intro _ st h; simpa using h
  | cons seg rest ih =>
    intro hheads st h
    simp only [List.foldl_cons]
    apply ih (fun s hs => hheads s (by simp [hs]))
    exact WInv_processSegment ctx d0 hspace hsw seg (hheads seg (by simp)) _ st h

/-- A measurement under which the single space is 100 units wide in the bold
font style but 1 unit wide otherwise, while every other string is 4 units per
character.  (Real font metrics also give the space different widths in
different styles; this exaggerates the effect.) -/
def gwBoldSpace : MeasureFn := fun s d =>
  if s = [' '] then (if d.fontStyle = "bold".toList then 100 else 1)
  else 4 * s.length

/-- C2 (corrected claim, counterexample): the sum of the per-segment measured
widths of a produced line can exceed the effective width even for a
multi-segment (non-forced) line, when the measurement function gives the
space character a style-dependent width.  The wrapper accounts inserted
spaces at the entry-state space width (`normal` style, width 1 here), but the
inserted space segment carries the following word's bold style, under which
this measurement reports width 100; the packed line `a· b` (3 segments)
measures `4 + 100 + 4 = 108 > 10 = maxWidth`. -/
theorem C2_counterexample_bold_space :
    (splitTextToLines gwBoldSpace doc0
        (parseInlineMarkdown "**a** **b**".toList) 10 0 "f".toList).1.length = 1
    ∧ ((splitTextToLines gwBoldSpace doc0
        (parseInlineMarkdown "**a** **b**".toList) 10 0 "f".toList).1.map
          (fun line => line.length)) = [3]
    ∧ ¬((measureTotalWidth gwBoldSpace doc0.fontSize "f".toList
        ((splitTextToLines gwBoldSpace doc0
          (parseInlineMarkdown "**a** **b**".toList) 10 0 "f".toList).1.headD [])
        doc0).1 ≤ 10 - 0 * doc0.fontSize) := by
  have hsegs : parseInlineMarkdown "**a** **b**".toList
      = [⟨['a'], { defaultStyle with bold := true }⟩,
         ⟨[' '], defaultStyle⟩,
         ⟨['b'], { defaultStyle with bold := true }⟩] := by
    simp [parseInlineMarkdown, parseInlineAux, flushSeg, defaultStyle]
  rw [hsegs]
  iterate 6 (try simp [splitTextToLines, processSegment, splitChar, mkWrapCtx,
    List.foldl_cons, List.foldl_nil, processWord, addWordToLine,
    commitCurrentLine, gwBoldSpace, doc0, applyStyle, fontStyleOf,
    defaultStyle, measureTotalWidth]; try norm_num)

/-- C2 (amended): for wrapper input produced by the inline tokenizer and any
measurement function that gives the single space the same width in every
document font state, every line produced by `splitTextToLines` either has
per-segment re-measured width sum at most the effective width
(`maxWidth - baseIndentation * fontSize`) or consists of a single (forced)
segment. -/
theorem C2_width_bound (gw : MeasureFn) (d0 : DocState)
    (maxWidth baseIndentation : ℚ) (font : Str) (input : Str)
    (hsp : ∀ d1 d2 : DocState, gw [' '] d1 = gw [' '] d2) :
    ∀ line ∈ (splitTextToLines gw d0 (parseInlineMarkdown input)
        maxWidth baseIndentation font).1,
      (measureTotalWidth gw d0.fontSize font line d0).1
          ≤ maxWidth - baseIndentation * d0.fontSize
      ∨ line.length = 1 := by
  intro line hline
  set ctx := mkWrapCtx gw d0 maxWidth baseIndentation font with hctx
  have hspace : ∀ d1 d2 : DocState, ctx.gw [' '] d1 = ctx.gw [' '] d2 := hsp
  have hsw : ctx.spaceWidth = ctx.gw [' '] d0 := rfl
  have hinit : WInv ctx d0 ⟨d0, [], [], 0⟩ := by
    refine ⟨rfl, rfl, ?_, ?_, ?_, ?_, ?_⟩ <;> simp
  have hfinal := WInv_foldSegments ctx d0 hspace hsw
    (parseInlineMarkdown input)
    (parseInlineAux_heading input [] defaultStyle rfl) _ hinit
  rw [splitTextToLines] at hline
  set st := (parseInlineMarkdown input).foldl
    (fun st seg => processSegment ctx st seg) ⟨d0, [], [], 0⟩
  have hconv : ∀ (l : List TextSegment),
      (l.map (fun s => ctx.gw s.text
        (applyStyle d0 s.style d0.fontSize ctx.font))).sum
      = (measureTotalWidth gw d0.fontSize font l d0).1 := by
    intro l
    rw [measureTotalWidth_fst]
    rfl
  have havail : ctx.availableWidth = maxWidth - baseIndentation * d0.fontSize :=
    rfl
  simp only [List.mem_append] at hline
  rcases hline with h1 | h1
  · rcases hfinal.hcommitted line h1 with h2 | h2
    · left; rw [← hconv, ← havail]; exact h2
    · right; exact h2
  · by_cases hc : st.cur = []
    · simp [hc] at h1
    · simp only [hc, if_false, List.mem_singleton] at h1
      subst h1
      rcases hfinal.hbound with h2 | h2 | h2
      · left
        rw [← hconv, ← havail, hfinal.hsum]
        exact h2
      · right; exact h2
      · exact absurd h2 hc

/-- C2 witness: the width bound applied to the concrete input
`hello world` with `maxWidth = 100` under the style-independent
one-unit-per-character measurement. -/
theorem C2_witness :
    (measureTotalWidth gwLen doc0.fontSize "f".toList
        [⟨"hello".toList, defaultStyle⟩, ⟨[' '], defaultStyle⟩,
          ⟨"world".toList, defaultStyle⟩] doc0).1
      ≤ 100 - 0 * doc0.fontSize
    ∨ ([⟨"hello".toList, defaultStyle⟩, ⟨[' '], defaultStyle⟩,
        ⟨"world".toList, defaultStyle⟩] : List TextSegment).length = 1 := by
  apply C2_width_bound gwLen doc0 100 0 "f".toList "hello world".toList
    (fun _ _ => rfl)
  have hres : (splitTextToLines gwLen doc0
      (parseInlineMarkdown "hello world".toList) 100 0 "f".toList).1
      = [[⟨"hello".toList, defaultStyle⟩, ⟨[' '], defaultStyle⟩,
          ⟨"world".toList, defaultStyle⟩]] := by
    have hsegs : parseInlineMarkdown "hello world".toList
        = [⟨"hello world".toList, defaultStyle⟩] := by
      simp [parseInlineMarkdown, parseInlineAux, flushSeg, defaultStyle]
    rw [hsegs]
    iterate 6
      (try simp [splitTextToLines, processSegment, splitChar,
        mkWrapCtx, List.foldl_cons, List.foldl_nil, processWord, addWordToLine,
        commitCurrentLine, gwLen, doc0, applyStyle, fontStyleOf, defaultStyle]
       try norm_num)
  rw [hres]
  simp

/-! ### C3: round-trip of tokenize-then-wrap -/

/-- The text of a wrapped line: the concatenation of its segments' texts. -/
def lineText (line : List TextSegment) : Str :=
  (line.map TextSegment.text).flatten

/-- The non-empty space-separated words of one segment's text, in order. -/
def segWords (seg : TextSegment) : List Str :=
  (splitChar ' ' seg.text).filter (fun w => ! w.isEmpty)

/-- All non-empty words of a segment list, in order. -/
def allWords (segs : List TextSegment) : List Str :=
  (segs.map segWords).flatten

/-- The claim's reconstruction of the paragraph from the wrapped lines:
concatenate the segment texts of each line and join the lines with single
spaces. -/
def wrapRecon (gw : MeasureFn) (doc : DocState) (segs : List TextSegment)
    (maxWidth baseIndentation : ℚ) (font : Str) : Str :=
  joinWith [' ']
    (((splitTextToLines gw doc segs maxWidth baseIndentation font).1).map
      lineText)

lemma joinWith_append (sep : Str) (A B : List Str) (hB : B ≠ []) :
    joinWith sep (A ++ B)
      = (if A = [] then [] else joinWith sep A ++ sep) ++ joinWith sep B := by
  induction A with
  | nil => simp
  | cons a as ih =>
    cases as with
    | nil =>
      cases B with
      | nil => exact absurd rfl hB
      | cons b bs => simp [joinWith]
    | cons a2 as2 =>
      have h1 : (a :: a2 :: as2) ++ B = a :: ((a2 :: as2) ++ B) := rfl
      have h2 : joinWith sep (a :: ((a2 :: as2) ++ B))
          = a ++ sep ++ joinWith sep ((a2 :: as2) ++ B) := rfl
      rw [h1, h2, ih]
      simp [joinWith, List.append_assoc]

lemma lineText_singleton (s : TextSegment) : lineText [s] = s.text := by
  simp [lineText]

lemma lineText_append2 (cur : List TextSegment) (a b : TextSegment) :
    lineText (cur ++ [a, b]) = lineText cur ++ a.text ++ b.text := by
  simp [lineText]

/-- The line texts accumulated in a wrap state: committed lines first, then
the (non-empty) current line. -/
def reconList (st : WrapState) : List Str :=
  st.committed.map lineText ++ (if st.cur = [] then [] else [lineText st.cur])

/-- Invariant for the reconstruction argument: the line texts accumulated so
far, joined with single spaces, spell exactly the non-empty words processed
so far joined with single spaces. -/
structure RInv (st : WrapState) (ws : List Str) : Prop where
  hzero : st.cur = [] → st.curWidth = 0
  hrecon : joinWith [' '] (reconList st) = joinWith [' '] ws
  hnil : reconList st = [] ↔ ws = []

lemma RInv_commit (st : WrapState) (ws : List Str) (h : RInv st ws) :
    RInv (commitCurrentLine st) ws := by
  by_cases hc : st.cur = []
  · simpa [commitCurrentLine, hc] using h
  · refine ⟨?_, ?_, ?_⟩ <;> simp only [commitCurrentLine, hc, if_false]
    · simp
    · have hr := h.hrecon
      simp only [reconList, hc, if_false] at hr
      simpa [reconList] using hr
    · have hn := h.hnil
      simp only [reconList, hc, if_false] at hn
      simpa [reconList] using hn

lemma RInv_addWordToLine (ctx : WrapCtx) (st : WrapState) (ws : List Str)
    (seg : TextSegment) (w : ℚ) (h : RInv st ws) :
    RInv (addWordToLine ctx st seg w) (ws ++ [seg.text]) := by
  by_cases hc : st.cur = []
  · refine ⟨?_, ?_, ?_⟩ <;> simp only [addWordToLine, hc, if_true]
    · simp
    · have hr := h.hrecon
      have hn := h.hnil
      simp only [reconList, hc, if_true, List.append_nil] at hr hn
      simp only [reconList]
      rw [if_neg (by simp : ¬ ([seg] : List TextSegment) = []),
        lineText_singleton]
      rw [joinWith_append [' '] (st.committed.map lineText) [seg.text]
        (by simp), joinWith_append [' '] ws [seg.text] (by simp)]
      by_cases hM : st.committed.map lineText = []
      · rw [if_pos hM, if_pos (hn.mp hM)]
      · rw [if_neg hM, if_neg (fun hw => hM (hn.mpr hw)), hr]
    · simp [reconList]
  · refine ⟨?_, ?_, ?_⟩ <;> simp only [addWordToLine, hc, if_false]
    · simp
    · have hr := h.hrecon
      have hn := h.hnil
      simp only [reconList, hc, if_false] at hr hn
      have hws : ¬ ws = [] := fun hw => by simpa using hn.mpr hw
      simp only [reconList]
      have hne : ¬ (st.cur ++ [(⟨[' '], seg.style⟩ : TextSegment), seg] = []) := by
        simp
      rw [if_neg hne, lineText_append2]
      rw [joinWith_append [' '] (st.committed.map lineText)
        [lineText st.cur ++ (⟨[' '], seg.style⟩ : TextSegment).text ++ seg.text]
        (by simp), joinWith_append [' '] ws [seg.text] (by simp), if_neg hws,
        ← hr, joinWith_append [' '] (st.committed.map lineText)
        [lineText st.cur] (by simp)]
      by_cases hM : st.committed.map lineText = []
      · rw [if_pos hM]
        simp [joinWith, List.append_assoc]
      · rw [if_neg hM]
        simp [joinWith, List.append_assoc]
    · simp [reconList]

lemma RInv_processWord (ctx : WrapCtx)
    (st : WrapState) (ws : List Str) (segStyle : TextStyle) (w : Str)
    (hwfit : ¬ w = [] → ∀ d, ctx.gw w d ≤ ctx.availableWidth)
    (h : RInv st ws) :
    RInv (processWord ctx st segStyle w)
      (ws ++ (if w = [] then [] else [w])) := by
  by_cases hw : w = []
  · simpa [processWord, hw] using h
  · rw [processWord]
    simp only [hw, if_false]
    set sty1 : TextStyle := { segStyle with indentation := ctx.baseIndentation }
      with hsty1
    set doc1 := applyStyle st.doc sty1 st.doc.fontSize ctx.font with hdoc1
    have h1 : RInv { st with doc := doc1 } ws := ⟨h.hzero, h.hrecon, h.hnil⟩
    by_cases hfits : st.curWidth + (if st.cur = [] then 0 else ctx.spaceWidth)
        + ctx.gw w doc1 ≤ ctx.availableWidth
    · rw [if_pos hfits]
      exact RInv_addWordToLine ctx _ ws ⟨w, sty1⟩ _ h1
    · rw [if_neg hfits]
      by_cases hc : st.cur = []
      · exfalso
        apply hfits
        rw [h.hzero hc, if_pos hc]
        simpa using hwfit hw doc1
      · rw [if_neg hc, if_pos (hwfit hw doc1)]
        exact RInv_addWordToLine ctx _ ws ⟨w, sty1⟩ _ (RInv_commit _ _ h1)

lemma RInv_foldWords (ctx : WrapCtx) (style : TextStyle) :
    ∀ (ls : List Str),
      (∀ w ∈ ls, ¬ w = [] → ∀ d, ctx.gw w d ≤ ctx.availableWidth) →
      ∀ (st : WrapState) (ws : List Str), RInv st ws →
      RInv (ls.foldl (fun st w => processWord ctx st style w) st)
        (ws ++ ls.filter (fun w => ! w.isEmpty)) := by
  intro ls
  induction ls with
  | nil => intro _ st ws h; simpa using h
  | cons w rest ih =>
    intro hfit st ws h
    simp only [List.foldl_cons]
    by_cases hw : w = []
    · subst hw
      have h2 := RInv_processWord ctx st ws style []
        (fun hne => absurd rfl hne) h
      simp only [if_pos rfl, List.append_nil] at h2
      have h3 := ih (fun v hv => hfit v (by simp [hv])) _ _ h2
      simpa [List.filter_cons] using h3
    · have h2 := RInv_processWord ctx st ws style w
        (fun _ => hfit w (by simp) hw) h
      rw [if_neg hw] at h2
      have h3 := ih (fun v hv => hfit v (by simp [hv])) _ _ h2
      have hwe : w.isEmpty = false := by
        cases w with
        | nil => exact absurd rfl hw
        | cons c cs => rfl
      simpa [List.filter_cons, hwe, List.append_assoc] using h3

lemma RInv_processSegment (ctx : WrapCtx)
    (st : WrapState) (ws : List Str) (seg : TextSegment)
    (hfit : ∀ w ∈ segWords seg, ∀ d, ctx.gw w d ≤ ctx.availableWidth)
    (h : RInv st ws) :
    RInv (processSegment ctx st seg) (ws ++ segWords seg) :=
  RInv_foldWords ctx seg.style (splitChar ' ' seg.text)
    (fun w hw hne d => hfit w (by
      simp only [segWords, List.mem_filter]
      refine ⟨hw, ?_⟩
      cases w with
      | nil => exact absurd rfl hne
      | cons c cs => rfl) d)
    st ws h

lemma RInv_foldSegments (ctx : WrapCtx) :
    ∀ (segs : List TextSegment),
      (∀ w ∈ allWords segs, ∀ d, ctx.gw w d ≤ ctx.availableWidth) →
      ∀ (st : WrapState) (ws : List Str), RInv st ws →
      RInv (segs.foldl (fun st seg => processSegment ctx st seg) st)
        (ws ++ allWords segs) := by
  intro segs
  induction segs with
  | nil => intro _ st ws h; simpa [allWords] using h
  | cons seg rest ih =>
    intro hfit st ws h
    simp only [List.foldl_cons]
    have h2 := RInv_processSegment ctx st ws seg
      (fun w hw d => hfit w (by
        simp only [allWords, List.map_cons, List.flatten_cons, List.mem_append]
        exact Or.inl hw) d) h
    have h3 := ih (fun w hw d => hfit w (by
        simp only [allWords, List.map_cons, List.flatten_cons,
          List.mem_append] at hw ⊢
        exact Or.inr hw) d) _ _ h2
    simpa [allWords, List.append_assoc] using h3

/-- C3 (corrected claim, counterexample): for the input `a**b**` the claimed
round-trip fails.  The delimiter-stripped source text is `ab`, but the
wrapper emits the two style runs as separate words and inserts a
single-space segment between them, so the reconstruction of the wrapped
output reads `a b`. -/
theorem C3_counterexample_style_boundary :
    wrapRecon gwLen doc0 (parseInlineMarkdown "a**b**".toList) 100 0
        "f".toList = "a b".toList
    ∧ stripMarkers "a**b**".toList = "ab".toList
    ∧ "a b".toList ≠ "ab".toList := by
  refine ⟨?_, by simp [stripMarkers], by simp⟩
  have hsegs : parseInlineMarkdown "a**b**".toList
      = [⟨['a'], defaultStyle⟩, ⟨['b'], { defaultStyle with bold := true }⟩] := by
    simp [parseInlineMarkdown, parseInlineAux, flushSeg, defaultStyle]
  rw [wrapRecon, hsegs]
  iterate 6 (try simp [splitTextToLines, processSegment, splitChar, mkWrapCtx,
    List.foldl_cons, List.foldl_nil, processWord, addWordToLine,
    commitCurrentLine, gwLen, doc0, applyStyle, fontStyleOf, defaultStyle,
    lineText, joinWith]; try norm_num)

/-- C3 (amended): when every word of the input — every non-empty
space-separated word of every segment — measures within the effective width
in every document font state (so no word is force-split and every word fits
on a fresh line), the reconstruction of the wrapped output — segment texts
concatenated per line, lines joined by single spaces — equals those words
joined by single spaces.  This normalizes runs of spaces and inserts a
separating space at every segment (style-run) boundary, so it equals the
delimiter-stripped source only up to that whitespace normalization, not
literally. -/
theorem C3_reconstruction (gw : MeasureFn) (doc : DocState)
    (maxWidth baseIndentation : ℚ) (font : Str) (segs : List TextSegment)
    (hfit : ∀ w ∈ allWords segs, ∀ d,
      gw w d ≤ maxWidth - baseIndentation * doc.fontSize) :
    wrapRecon gw doc segs maxWidth baseIndentation font
      = joinWith [' '] (allWords segs) := by
  set ctx := mkWrapCtx gw doc maxWidth baseIndentation font with hctxdef
  set stF := segs.foldl (fun st seg => processSegment ctx st seg)
    ⟨doc, [], [], 0⟩ with hstF
  have hfit' : ∀ w ∈ allWords segs, ∀ d, ctx.gw w d ≤ ctx.availableWidth :=
    fun w hw d => hfit w hw d
  have h0 : RInv ⟨doc, [], [], 0⟩ [] := ⟨fun _ => rfl, rfl, by simp [reconList]⟩
  have hfin := RInv_foldSegments ctx segs hfit' ⟨doc, [], [], 0⟩ [] h0
  rw [← hstF] at hfin
  have hfst : (splitTextToLines gw doc segs maxWidth baseIndentation font).1
      = stF.committed ++ (if stF.cur = [] then [] else [stF.cur]) := rfl
  have hmap : (stF.committed
        ++ (if stF.cur = [] then [] else [stF.cur])).map lineText
      = reconList stF := by
    by_cases hc : stF.cur = [] <;> simp [reconList, hc]
  rw [wrapRecon, hfst, hmap]
  simpa using hfin.hrecon

/-- Witness for the amended C3 theorem at a concrete input, under the
additive one-unit-per-character measure: each of the words `a`, `b`, `c`
measures 1 ≤ 100. -/
theorem C3_witness :
    wrapRecon gwLen doc0 (parseInlineMarkdown "a**b** c".toList) 100 0
        "f".toList
      = joinWith [' '] (allWords (parseInlineMarkdown "a**b** c".toList)) := by
  apply C3_reconstruction gwLen doc0 100 0 "f".toList
    (parseInlineMarkdown "a**b** c".toList)
  intro w hw d
  have hall : allWords (parseInlineMarkdown "a**b** c".toList)
      = [['a'], ['b'], ['c']] := by
    simp [allWords, segWords, parseInlineMarkdown, parseInlineAux, flushSeg,
      defaultStyle, splitChar]
  rw [hall] at hw
  simp only [List.mem_cons, List.not_mem_nil, or_false] at hw
  rcases hw with h | h | h <;> subst h <;> norm_num [gwLen, doc0]

/-! ### C5: the justify renderer's fallback branch -/

lemma renderFallback_calls (gw : MeasureFn) :
    ∀ (segs : List TextSegment), (∀ s ∈ segs, s.style.heading = none) →
      ∀ (fs : ℚ) (fn : Str) (x1 x2 y : ℚ) (doc : DocState),
        doc.fontSize = fs → doc.fontName = fn →
        (renderFallback gw segs x1 y doc).1.map
            (fun c => (c.text, c.y, c.docState))
          = (drawSegs gw fs fn segs x2 y doc).1.map
              (fun c => (c.text, c.y, c.docState)) := by
  intro segs
  induction segs with
  | nil =>
    intro _ fs fn x1 x2 y doc _ _
    simp [renderFallback, drawSegs]
  | cons seg rest ih =>
    intro hheads fs fn x1 x2 y doc hfs hfn
    have hsty : seg.style.heading = none := hheads seg (by simp)
    have hdoc1 : applyStyle doc seg.style doc.fontSize doc.fontName
        = applyStyle doc seg.style fs fn := by rw [hfs, hfn]
    simp only [renderFallback, drawSegs, hdoc1, List.map_cons]
    congr 1
    exact ih (fun s hs => hheads s (by simp [hs])) fs fn _ _ y
      (applyStyle doc seg.style fs fn)
      (applyStyle_fontSize_of_heading_none _ _ _ _ hsty) rfl

lemma renderFallback_width_sum (gw : MeasureFn) (segs : List TextSegment)
    (hheads : ∀ s ∈ segs, s.style.heading = none) (x y x2 : ℚ)
    (doc : DocState) :
    ((renderFallback gw segs x y doc).1.map
        (fun c => gw c.text c.docState)).sum
      = ((drawSegs gw doc.fontSize doc.fontName segs x2 y doc).1.map
          (fun c => gw c.text c.docState)).sum := by
  have h := renderFallback_calls gw segs hheads doc.fontSize doc.fontName
    x x2 y doc rfl rfl
  have e1 : (renderFallback gw segs x y doc).1.map
        (fun c => gw c.text c.docState)
      = ((renderFallback gw segs x y doc).1.map
          (fun c => (c.text, c.y, c.docState))).map
            (fun t => gw t.1 t.2.2) := by
    rw [List.map_map]
    rfl
  have e2 : (drawSegs gw doc.fontSize doc.fontName segs x2 y doc).1.map
        (fun c => gw c.text c.docState)
      = ((drawSegs gw doc.fontSize doc.fontName segs x2 y doc).1.map
          (fun c => (c.text, c.y, c.docState))).map
            (fun t => gw t.1 t.2.2) := by
    rw [List.map_map]
    rfl
  rw [e1, e2, h]

/-- C5 (corrected claim, counterexample): the fallback branch taken for the
last line is not left-alignment behavior.  On the line `a`, `·`, `b` it
advances past each non-space segment by the width of the segment text with a
space appended, drawing at x-positions 0, 2, 3, while the left-alignment
renderer draws the same texts at 0, 1, 2. -/
theorem C5_counterexample_fallback_phantom_space :
    ((renderJustifiedLine gwLen doc0
        [⟨['a'], defaultStyle⟩, ⟨[' '], defaultStyle⟩, ⟨['b'], defaultStyle⟩]
        0 0 50 true).1.map DrawCall.x) = [0, 2, 3]
    ∧ ((drawSegs gwLen doc0.fontSize doc0.fontName
        [⟨['a'], defaultStyle⟩, ⟨[' '], defaultStyle⟩, ⟨['b'], defaultStyle⟩]
        0 0 doc0).1.map DrawCall.x) = [0, 1, 2]
    ∧ ([0, 2, 3] : List ℚ) ≠ [0, 1, 2] := by
  refine ⟨?_, ?_, by norm_num⟩ <;>
    iterate 6
      (try simp [renderJustifiedLine, renderFallback, drawSegs, applyStyle,
        fontStyleOf, gwLen, doc0, defaultStyle]
       try norm_num)

/-- C5 (amended): (1) for the last line of a paragraph or a line with at most
one segment, `renderJustifiedLine` runs the fallback branch (no stretch is
computed, so the `numberOfSpaces > 0` guard — and with it any division — is
never reached); (2) for a non-last multi-segment line with zero space
segments the guard makes the extra stretch 0 (no division by zero); (3) the
fallback draws the same texts with the same styles and y as the
left-alignment renderer, so the rendered segment widths sum to the same
value — but, as the counterexample shows, at different x-positions, because
the fallback advances by the width of each non-space segment's text with a
space appended. -/
theorem C5_justify_fallback (gw : MeasureFn) (doc : DocState)
    (segs : List TextSegment) (x y maxWidth : ℚ) :
    (∀ isLast : Bool, (isLast = true ∨ segs.length ≤ 1) →
      renderJustifiedLine gw doc segs x y maxWidth isLast
        = renderFallback gw segs x y doc)
    ∧ ((justMeasure gw segs doc).2.1 = 0 → ¬ segs.length ≤ 1 →
      renderJustifiedLine gw doc segs x y maxWidth false
        = justRender gw 0 segs x y (justMeasure gw segs doc).2.2)
    ∧ ((∀ s ∈ segs, s.style.heading = none) → ∀ x2 : ℚ,
      ((renderFallback gw segs x y doc).1.map
          (fun c => gw c.text c.docState)).sum
        = ((drawSegs gw doc.fontSize doc.fontName segs x2 y doc).1.map
            (fun c => gw c.text c.docState)).sum) := by
  refine ⟨?_, ?_, ?_⟩
  · intro isLast h
    rw [renderJustifiedLine, if_pos h]
  · intro h0 hlen
    simp only [renderJustifiedLine]
    rw [if_neg (by simp [hlen])]
    rw [h0]
    norm_num
  · intro hheads x2
    exact renderFallback_width_sum gw segs hheads x y x2 doc

/-- Witness for the amended C5 theorem at a concrete two-word line. -/
theorem C5_witness :
    renderJustifiedLine gwLen doc0
        [⟨['a'], defaultStyle⟩, ⟨['b'], defaultStyle⟩] 0 0 50 true
      = renderFallback gwLen [⟨['a'], defaultStyle⟩, ⟨['b'], defaultStyle⟩]
          0 0 doc0
    ∧ renderJustifiedLine gwLen doc0
        [⟨['a'], defaultStyle⟩, ⟨['b'], defaultStyle⟩] 0 0 50 false
      = justRender gwLen 0 [⟨['a'], defaultStyle⟩, ⟨['b'], defaultStyle⟩] 0 0
          (justMeasure gwLen [⟨['a'], defaultStyle⟩, ⟨['b'], defaultStyle⟩]
            doc0).2.2
    ∧ ((renderFallback gwLen [⟨['a'], defaultStyle⟩, ⟨['b'], defaultStyle⟩]
          0 0 doc0).1.map (fun c => gwLen c.text c.docState)).sum
      = ((drawSegs gwLen doc0.fontSize doc0.fontName
          [⟨['a'], defaultStyle⟩, ⟨['b'], defaultStyle⟩] 7 0 doc0).1.map
            (fun c => gwLen c.text c.docState)).sum := by
  obtain ⟨h1, h2, h3⟩ := C5_justify_fallback gwLen doc0
    [⟨['a'], defaultStyle⟩, ⟨['b'], defaultStyle⟩] 0 0 50
  refine ⟨h1 true (Or.inl rfl), h2 ?_ ?_, h3 ?_ 7⟩
  · simp [justMeasure]
  · simp
  · intro s hs
    simp only [List.mem_cons, List.not_mem_nil, or_false] at hs
    rcases hs with h | h <;> subst h <;> rfl

/-! ### C6: page breaks in the caller's paragraph loop -/

/-- The `PDFMarkdownOptions` the paragraph loop of `generatePdf` passes to
`parsePDFMarkdown`. -/
def previewOpts (s : PreviewSettings) : PDFMarkdownOptions :=
  { maxWidth := s.pageWidth - s.marginLeft - s.marginRight
    align := s.paragraphAlignment
    fontSize := s.paragraphSize
    lineHeight := s.paragraphLineHeight
    font := s.paragraphFamily }

/-- Settings for the C6 scenario: page height 100, bottom margin 10,
paragraph font size 10 with line-height factor 7 (so one text line is
10 * 0.352778 * 7 = 24.69446 units tall). -/
def sC6 : PreviewSettings :=
  { pageWidth := 200
    pageHeight := 100
    marginLeft := 0
    marginRight := 0
    marginTop := 5
    marginBottom := 10
    numberingEnabled := false
    numberingCenter := false
    numberingRight := false
    numberingTop := false
    footerFamily := "f".toList
    footerSize := 8
    paragraphFamily := "f".toList
    paragraphSize := 10
    paragraphLineHeight := 7
    paragraphAlignment := none }

/-- The document state entering the C6 scenario: page height 100. -/
def docC6 : DocState := ⟨"f".toList, "normal".toList, 10, 100⟩

/-- C6 (corrected claim, counterexample): at cursor 69 the next line needs
24.69446 units, so cursor + required height = 93.69446 exceeds
pageHeight - bottomMargin = 90 and the claim demands a page break; but the
loop's actual test compares the cursor alone against
pageHeight - marginBottom - 20 = 70, so no break is emitted (the page count
stays 3), the cursor is not reset, and the paragraph is not drawn at all:
parsePDFMarkdown truncates it (69 + 24.69446 > maxY = 80) and returns the
cursor unchanged. -/
theorem C6_counterexample_no_break :
    (previewParagraphStep gwLen sC6 0 (69, 3, docC6, []) "word".toList).1 = 69
    ∧ (previewParagraphStep gwLen sC6 0 (69, 3, docC6, [])
        "word".toList).2.1 = 3
    ∧ (previewParagraphStep gwLen sC6 0 (69, 3, docC6, [])
        "word".toList).2.2.2 = []
    ∧ 69 + sC6.paragraphSize * (352778/1000000) * sC6.paragraphLineHeight
        > sC6.pageHeight - sC6.marginBottom := by
  refine ⟨?_, ?_, ?_, by norm_num [sC6]⟩ <;>
    iterate 6
      (try simp [previewParagraphStep, parsePDFMarkdown, parseLinesLoop,
        collapseNewlines, replaceDashes, splitChar, jsTrim, addPageNumber,
        sC6, docC6]
       try norm_num)

/-- C6 (amended): the paragraph loop breaks the page iff the incoming cursor
alone exceeds `pageHeight - marginBottom - 20` — the height of the upcoming
block plays no part.  When the test fails the paragraph is laid out at the
incoming cursor with no side effect; when it holds, exactly one page break is
emitted (page number drawn, arabic count incremented) and the cursor is reset
to the top margin before the paragraph is laid out.  The engine itself never
breaks pages: a non-blank line that would end past `maxY` stops
`parseLinesLoop`, truncating the remaining text with the cursor unchanged. -/
theorem C6_page_break_behavior (gw : MeasureFn) (s : PreviewSettings)
    (ci y : ℚ) (a : ℕ) (doc : DocState) (ds : List DrawCall) (p : Str) :
    (y ≤ s.pageHeight - s.marginBottom - 20 →
      previewParagraphStep gw s ci (y, a, doc, ds) p
        = ((parsePDFMarkdown gw doc p (s.marginLeft + ci * 10) y
              (previewOpts s)).1,
           a,
           (parsePDFMarkdown gw doc p (s.marginLeft + ci * 10) y
              (previewOpts s)).2.2,
           ds ++ (parsePDFMarkdown gw doc p (s.marginLeft + ci * 10) y
              (previewOpts s)).2.1))
    ∧ (y > s.pageHeight - s.marginBottom - 20 →
      previewParagraphStep gw s ci (y, a, doc, ds) p
        = ((parsePDFMarkdown gw (addPageNumber s a doc ds).1 p
              (s.marginLeft + ci * 10) s.marginTop (previewOpts s)).1,
           a + 1,
           (parsePDFMarkdown gw (addPageNumber s a doc ds).1 p
              (s.marginLeft + ci * 10) s.marginTop (previewOpts s)).2.2,
           (addPageNumber s a doc ds).2
             ++ (parsePDFMarkdown gw (addPageNumber s a doc ds).1 p
                  (s.marginLeft + ci * 10) s.marginTop (previewOpts s)).2.1))
    ∧ (∀ (x lineHeight maxY y2 : ℚ) (opts : PDFMarkdownOptions) (l : Str)
        (rest : List Str) (doc2 : DocState) (ds2 : List DrawCall),
        ¬ jsTrim l = [] → y2 + lineHeight > maxY →
        parseLinesLoop gw x opts lineHeight maxY (l :: rest) y2 doc2 ds2
          = (y2, ds2, doc2)) := by
  refine ⟨?_, ?_, ?_⟩
  · intro h
    simp only [previewParagraphStep, previewOpts]
    rw [if_neg (not_lt.mpr h)]
  · intro h
    simp only [previewParagraphStep, previewOpts]
    rw [if_pos h]
  · intro x lineHeight maxY y2 opts l rest doc2 ds2 h1 h2
    simp only [parseLinesLoop]
    rw [if_neg h1, if_pos h2]

/-- Witness for the amended C6 theorem: at cursor 69 no break happens; at
cursor 85 exactly one break happens and layout starts at the top margin; a
non-blank line ending past `maxY` truncates the loop. -/
theorem C6_witness :
    previewParagraphStep gwLen sC6 0 (69, 3, docC6, []) "word".toList
      = ((parsePDFMarkdown gwLen docC6 "word".toList (sC6.marginLeft + 0 * 10)
            69 (previewOpts sC6)).1,
         3,
         (parsePDFMarkdown gwLen docC6 "word".toList (sC6.marginLeft + 0 * 10)
            69 (previewOpts sC6)).2.2,
         [] ++ (parsePDFMarkdown gwLen docC6 "word".toList
            (sC6.marginLeft + 0 * 10) 69 (previewOpts sC6)).2.1)
    ∧ previewParagraphStep gwLen sC6 0 (85, 3, docC6, []) "word".toList
      = ((parsePDFMarkdown gwLen (addPageNumber sC6 3 docC6 []).1 "word".toList
            (sC6.marginLeft + 0 * 10) sC6.marginTop (previewOpts sC6)).1,
         3 + 1,
         (parsePDFMarkdown gwLen (addPageNumber sC6 3 docC6 []).1 "word".toList
            (sC6.marginLeft + 0 * 10) sC6.marginTop (previewOpts sC6)).2.2,
         (addPageNumber sC6 3 docC6 []).2
           ++ (parsePDFMarkdown gwLen (addPageNumber sC6 3 docC6 []).1
                "word".toList (sC6.marginLeft + 0 * 10) sC6.marginTop
                (previewOpts sC6)).2.1)
    ∧ parseLinesLoop gwLen 0 (previewOpts sC6) 25 80 ["word".toList] 69 docC6
        [] = (69, [], docC6) := by
  refine ⟨(C6_page_break_behavior gwLen sC6 0 69 3 docC6 [] "word".toList).1
      (by norm_num [sC6]),
    (C6_page_break_behavior gwLen sC6 0 85 3 docC6 [] "word".toList).2.1
      (by norm_num [sC6]),
    (C6_page_break_behavior gwLen sC6 0 69 3 docC6 [] "word".toList).2.2
      0 25 80 69 (previewOpts sC6) "word".toList [] docC6 []
      (by simp [jsTrim]) (by norm_num)⟩

/-! ### C7: monotonicity of the vertical cursor -/

lemma renderBlock_y_mono (gw : MeasureFn) (align : Option Align)
    (fontSize : ℚ) (font : Str) (lineHeight maxY xLeft justWidth : ℚ)
    (centerX rightX : ℚ → ℚ) (hlh : 0 ≤ lineHeight) :
    ∀ (lines : List (List TextSegment)) (y : ℚ) (doc : DocState)
      (ds : List DrawCall),
      y ≤ (renderBlock gw align fontSize font lineHeight maxY xLeft justWidth
        centerX rightX lines y doc ds).1 := by
  intro lines
  induction lines with
  | nil => intro y doc ds; simp [renderBlock]
  | cons lsegs rest ih =>
    intro y doc ds
    simp only [renderBlock]
    by_cases h : y > maxY
    · rw [if_pos h]
    · rw [if_neg h]
      by_cases hr : rest = []
      · rw [if_pos hr]
        exact ih _ _ _
      · rw [if_neg hr]
        exact le_trans (by linarith) (ih _ _ _)

lemma parseLinesLoop_y_mono (gw : MeasureFn) (x : ℚ)
    (opts : PDFMarkdownOptions) (lineHeight maxY : ℚ)
    (hlh : 0 ≤ lineHeight) :
    ∀ (ls : List Str) (y : ℚ) (doc : DocState) (ds : List DrawCall),
      y ≤ (parseLinesLoop gw x opts lineHeight maxY ls y doc ds).1 := by
  intro ls
  induction ls with
  | nil => intro y doc ds; simp [parseLinesLoop]
  | cons l rest ih =>
    intro y doc ds
    simp only [parseLinesLoop]
    by_cases h1 : jsTrim l = []
    · rw [if_pos h1]
      exact le_trans (by linarith) (ih _ _ _)
    · rw [if_neg h1]
      by_cases h2 : y + lineHeight > maxY
      · rw [if_pos h2]
      · rw [if_neg h2]
        split
        · rw [if_neg h2]
          exact le_trans (by linarith)
            (le_trans (renderBlock_y_mono _ _ _ _ _ _ _ _ _ _ hlh _ _ _ _)
              (ih _ _ _))
        · split
          · rw [if_neg h2]
            exact le_trans (by linarith)
              (le_trans (renderBlock_y_mono _ _ _ _ _ _ _ _ _ _ hlh _ _ _ _)
                (ih _ _ _))
          · split
            · rw [if_neg h2]
              exact le_trans (by linarith)
                (le_trans (renderBlock_y_mono _ _ _ _ _ _ _ _ _ _ hlh _ _ _ _)
                  (ih _ _ _))
            · rw [if_neg h2]
              exact le_trans (by linarith)
                (le_trans (renderBlock_y_mono _ _ _ _ _ _ _ _ _ _ hlh _ _ _ _)
                  (ih _ _ _))

/-- C7 (corrected claim, counterexample): with a negative `lineHeight` option
the cursor moves up: starting at `y = 0`, laying out the single line `a`
returns a negative cursor (`0 * ... * (-1)` products make each increment
negative), so the returned `newY` is strictly below the `y` passed in. -/
theorem C7_counterexample_negative_lineheight :
    (parsePDFMarkdown gwLen doc0 ['a'] 0 0
        ⟨100, none, 10, -1, "f".toList⟩).1 < 0 := by
  iterate 8
    (try simp [parsePDFMarkdown, collapseNewlines, replaceDashes, splitChar,
      parseLinesLoop, jsTrim, calculateIndentation, isListMarker, headerMatch,
      orderedListMatch, unorderedListMatch, parseInlineMarkdown,
      parseInlineAux, flushSeg, defaultStyle, splitTextToLines, mkWrapCtx,
      processSegment, processWord, addWordToLine, commitCurrentLine,
      renderBlock, measureTotalWidth, drawSegs, applyStyle, fontStyleOf,
      gwLen, doc0, List.foldl_cons, List.foldl_nil]
     try norm_num)

/-- C7 (amended): the vertical cursor never decreases within a single
`parsePDFMarkdown` call provided the font size and line-height options are
non-negative (so the computed line height `fontSize * 0.352778 * lineHeight`
is non-negative); the unrestricted claim fails for a negative line-height
option. -/
theorem C7_y_monotone (gw : MeasureFn) (doc : DocState) (text : Str)
    (x y : ℚ) (opts : PDFMarkdownOptions) (hfs : 0 ≤ opts.fontSize)
    (hlh : 0 ≤ opts.lineHeight) :
    y ≤ (parsePDFMarkdown gw doc text x y opts).1 := by
  by_cases ht : text = []
  · simp [parsePDFMarkdown, ht]
  · simp only [parsePDFMarkdown]
    rw [if_neg ht]
    exact parseLinesLoop_y_mono gw x opts _ _
      (mul_nonneg (mul_nonneg hfs (by norm_num)) hlh) _ _ _ _

/-- Witness for the amended C7 theorem at a concrete call. -/
theorem C7_witness :
    (0:ℚ) ≤ (⟨100, none, 10, 1, "f".toList⟩ : PDFMarkdownOptions).fontSize
    ∧ (0:ℚ) ≤ (⟨100, none, 10, 1, "f".toList⟩ : PDFMarkdownOptions).lineHeight
    ∧ (5:ℚ) ≤ (parsePDFMarkdown gwLen doc0 ['a'] 0 5
        ⟨100, none, 10, 1, "f".toList⟩).1 :=
  ⟨by norm_num, by norm_num,
    C7_y_monotone gwLen doc0 ['a'] 0 5 ⟨100, none, 10, 1, "f".toList⟩
      (by norm_num) (by norm_num)⟩

/-! ### C8: heading layout and rendering -/

lemma c8_lines_eval :
    (splitTextToLines gwLen
        { doc0 with fontSize := 10 * (5/2 - (1:ℚ) * (3/10))
                    fontStyle := "bold".toList }
        (parseInlineMarkdown "Heading One".toList) 100 0 "f".toList).1
      = [[⟨"Heading".toList, defaultStyle⟩, ⟨[' '], defaultStyle⟩,
          ⟨"One".toList, defaultStyle⟩]] := by
  have hsegs : parseInlineMarkdown "Heading One".toList
      = [⟨"Heading One".toList, defaultStyle⟩] := by
    simp [parseInlineMarkdown, parseInlineAux, flushSeg, defaultStyle]
  rw [hsegs]
  iterate 6
    (try simp [splitTextToLines, processSegment, splitChar, mkWrapCtx,
      List.foldl_cons, List.foldl_nil, processWord, addWordToLine,
      commitCurrentLine, gwLen, doc0, applyStyle, fontStyleOf, defaultStyle]
     try norm_num)

lemma c8_draws_eval :
    (parsePDFMarkdown gwLen doc0 "# Heading One".toList 0 0
        ⟨100, none, 10, 1, "f".toList⟩).2.1
      = [⟨"Heading".toList, 5/2, 176389/50000,
          ⟨"f".toList, "normal".toList, 10, 1000⟩⟩,
         ⟨[' '], 19/2, 176389/50000,
          ⟨"f".toList, "normal".toList, 10, 1000⟩⟩,
         ⟨"One".toList, 21/2, 176389/50000,
          ⟨"f".toList, "normal".toList, 10, 1000⟩⟩] := by
  iterate 8
    (try simp [parsePDFMarkdown, collapseNewlines, replaceDashes, splitChar,
      parseLinesLoop, jsTrim, calculateIndentation, isListMarker, headerMatch,
      orderedListMatch, unorderedListMatch, parseInlineMarkdown,
      parseInlineAux, flushSeg, defaultStyle, splitTextToLines, mkWrapCtx,
      processSegment, processWord, addWordToLine, commitCurrentLine,
      renderBlock, measureTotalWidth, drawSegs, applyStyle, fontStyleOf,
      gwLen, doc0, List.foldl_cons, List.foldl_nil]
     try norm_num)

/-- C8 (corrected claim, counterexample): on `# Heading One` the layout does
not produce one single-segment line styled `heading:1, bold:true` — the
heading flag is never overlaid on the segments — and nothing is rendered at
font size `10 * 2.2 = 22`: every draw call of the pipeline carries font size
10, the base size. -/
theorem C8_counterexample_heading_segments :
    (splitTextToLines gwLen
        { doc0 with fontSize := 10 * (5/2 - (1:ℚ) * (3/10))
                    fontStyle := "bold".toList }
        (parseInlineMarkdown "Heading One".toList) 100 0 "f".toList).1
      ≠ [[⟨"Heading One".toList,
           { defaultStyle with heading := some 1, bold := true }⟩]]
    ∧ ∀ c ∈ (parsePDFMarkdown gwLen doc0 "# Heading One".toList 0 0
        ⟨100, none, 10, 1, "f".toList⟩).2.1,
        c.docState.fontSize ≠ 10 * (5/2 - (1:ℚ) * (3/10)) := by
  constructor
  · rw [c8_lines_eval]
    simp [defaultStyle]
  · intro c hc
    rw [c8_draws_eval] at hc
    simp only [List.mem_cons, List.not_mem_nil, or_false] at hc
    rcases hc with h | h | h <;> subst h <;> norm_num

/-- C8 (amended): the header branch strips the `#` marker and wraps the
heading text with the document font set to `fontSize * (2.5 - 1*0.3)` bold —
so line breaking measures at the heading size — but the heading style is not
overlaid on the segments: the wrap of `Heading One` yields one line of three
segments (`Heading`, `·`, `One`) whose styles have `heading = none` and
`bold = false`.  When that line is rendered, `applyStyle` is called per
segment with the base font size, so every draw call of
`parsePDFMarkdown "# Heading One"` is issued at font size 10 in the
`normal` style, not at the heading size 22. -/
theorem C8_heading_rendering :
    (splitTextToLines gwLen
        { doc0 with fontSize := 10 * (5/2 - (1:ℚ) * (3/10))
                    fontStyle := "bold".toList }
        (parseInlineMarkdown "Heading One".toList) 100 0 "f".toList).1
      = [[⟨"Heading".toList, defaultStyle⟩, ⟨[' '], defaultStyle⟩,
          ⟨"One".toList, defaultStyle⟩]]
    ∧ (parsePDFMarkdown gwLen doc0 "# Heading One".toList 0 0
        ⟨100, none, 10, 1, "f".toList⟩).2.1.map
          (fun c => (c.text, c.docState.fontSize, c.docState.fontStyle))
      = [("Heading".toList, 10, "normal".toList),
         ([' '], 10, "normal".toList),
         ("One".toList, 10, "normal".toList)] := by
  refine ⟨c8_lines_eval, ?_⟩
  rw [c8_draws_eval]
  simp

end Layouter
